import Mathlib

/-!
Shallow embedding of the toy rendering engine (style resolution, box-tree
construction, block layout, display-list building and rasterization), together
with proofs of the specification claims about it.

Modelling conventions:
* `f32` is modelled as `ℚ` (the layout arithmetic is exact on the inputs the
  claims are about; no rounding behaviour is relied upon).
* Rust `HashMap` property maps are modelled as association lists where an
  insert prepends and a lookup takes the most recent binding, which gives the
  same lookup semantics as `HashMap::insert`/`get`.
* A Rust `panic!` is modelled by returning `none` from an `Option`-valued
  function; `Option` results are propagated through callers.
* `Vec::sort_by` is a stable ascending sort; it is modelled by
  `List.insertionSort`, which is also stable (an element is inserted before
  the first element it is `≤` to, and the sort consumes the list from the
  right, so equal elements keep their original relative order).
-/

namespace CSS

/-- `Color` from `css/types.rs`: four `u8` components, modelled as `Nat`. -/
structure Color where
  r : Nat
  g : Nat
  b : Nat
  a : Nat
deriving DecidableEq, Repr

/-- `Unit` from `css/types.rs`; only pixels exist. -/
inductive Unit where
  | Px
deriving DecidableEq, Repr

/-- `Value` from `css/types.rs`. -/
inductive Value where
  | Keyword (s : String)
  | Length (f : ℚ) (u : Unit)
  | ColorValue (c : Color)
deriving DecidableEq, Repr

/-- `Value::to_px` from `css/types.rs`: a pixel length yields its magnitude,
everything else yields `0.0`. -/
def Value.to_px : Value → ℚ
  | Value.Length f Unit.Px => f
  | _ => 0

/-- `SimpleSelector` from `css/types.rs`. The Rust field `class` is a
reserved word in Lean, hence the quoted name. -/
structure SimpleSelector where
  id : Option String
  «class» : List String
  tag_name : Option String
deriving DecidableEq, Repr

/-- `Selector` from `css/types.rs`. -/
inductive Selector where
  | Simple (s : SimpleSelector)
deriving DecidableEq, Repr

/-- `Specificity` from `css/types.rs`: `(usize, usize, usize)`. -/
abbrev Specificity := Nat × Nat × Nat

/-- `Selector::specificity` from `css/types.rs`: counts of id, class and tag
components (`Option::iter().count()` is `0` or `1`). -/
def Selector.specificity : Selector → Specificity
  | Selector.Simple simple =>
      (simple.id.toList.length, simple.«class».length, simple.tag_name.toList.length)

/-- Rust's derived `Ord` on a `(usize, usize, usize)` tuple is lexicographic;
`specLE a b` is `a.cmp(&b) != Greater`. -/
def specLE (a b : Specificity) : Prop :=
  a.1 < b.1 ∨ (a.1 = b.1 ∧ (a.2.1 < b.2.1 ∨ (a.2.1 = b.2.1 ∧ a.2.2 ≤ b.2.2)))

instance : DecidableRel specLE := fun a b => by unfold specLE; infer_instance

instance : IsTotal Specificity specLE :=
  ⟨by rintro ⟨a1, a2, a3⟩ ⟨b1, b2, b3⟩; unfold specLE; simp only []; omega⟩

instance : IsTrans Specificity specLE :=
  ⟨by rintro ⟨a1, a2, a3⟩ ⟨b1, b2, b3⟩ ⟨c1, c2, c3⟩; unfold specLE; simp only []; omega⟩

/-- `Declaration` from `css/types.rs`. -/
structure Declaration where
  name : String
  value : Value
deriving DecidableEq, Repr

/-- `Rule` from `css/types.rs`. -/
structure Rule where
  selectors : List Selector
  declarations : List Declaration
deriving DecidableEq, Repr

/-- `Stylesheet` from `css/types.rs`. -/
structure Stylesheet where
  rules : List Rule
deriving DecidableEq, Repr

end CSS

namespace HTML

/-- `ElementData` from `html/types.rs`; the `AttrMap` hash map is modelled as
an association list looked up by first match. -/
structure ElementData where
  tag_name : String
  attributes : List (String × String)
deriving DecidableEq, Repr

/-- `AttrMap` lookup (`HashMap::get`). -/
def ElementData.getAttr (elem : ElementData) (name : String) : Option String :=
  (elem.attributes.find? (fun p => p.1 == name)).map (fun p => p.2)

/-- Modelled from the spec: the accessor `ElementData::id` is used by
`style.rs` but its definition is absent from the sources; the spec says it is
"the `id` attribute, if present". -/
def ElementData.id (elem : ElementData) : Option String :=
  elem.getAttr "id"

/-- Splits a character list on spaces, dropping empty tokens (whitespace
splitting on the character level, so it is structurally recursive). -/
def splitTokens : List Char → List Char → List String
  | [], cur => if cur.isEmpty then [] else [String.mk cur.reverse]
  | c :: cs, cur =>
      if c = ' ' then
        if cur.isEmpty then splitTokens cs [] else String.mk cur.reverse :: splitTokens cs []
      else splitTokens cs (c :: cur)

/-- Modelled from the spec: the accessor `ElementData::classes` is used by
`style.rs` but its definition is absent from the sources; the spec says it is
"the `class` attribute split on whitespace into a set of tokens". -/
def ElementData.classes (elem : ElementData) : List String :=
  match elem.getAttr "class" with
  | some s => splitTokens s.toList []
  | none => []

end HTML

namespace Style

open CSS HTML

/-- `PropertyMap` from `style.rs` (a `HashMap<String, Value>`): association
list; insert prepends, lookup takes the most recent binding. -/
abbrev PropertyMap := List (String × Value)

/-- `HashMap::insert`: the new binding shadows any earlier one. -/
def PropertyMap.insert (values : PropertyMap) (name : String) (value : Value) : PropertyMap :=
  (name, value) :: values

/-- `HashMap::get` followed by `clone`. -/
def PropertyMap.get (values : PropertyMap) (name : String) : Option Value :=
  (values.find? (fun p => p.1 == name)).map (fun p => p.2)

/-- `Display` from `style.rs`. -/
inductive Display where
  | Inline
  | Block
  | None
deriving DecidableEq, Repr

/-- `StyledNode` from `style.rs`. The `node` back-reference to the document
tree is omitted: no function the claims depend on reads it. -/
inductive StyledNode where
  | mk (specified_values : PropertyMap) (children : List StyledNode)

/-- Field accessor for `StyledNode.specified_values`. -/
def StyledNode.specified_values : StyledNode → PropertyMap
  | StyledNode.mk values _ => values

/-- Field accessor for `StyledNode.children`. -/
def StyledNode.children : StyledNode → List StyledNode
  | StyledNode.mk _ children => children

/-- `StyledNode::value` from `style.rs`. -/
def StyledNode.value (s : StyledNode) (name : String) : Option Value :=
  PropertyMap.get s.specified_values name

/-- `StyledNode::display` from `style.rs`: `block` and `none` keywords are
recognised, everything else (other keywords, non-keywords, absent) is inline. -/
def StyledNode.display (s : StyledNode) : Display :=
  match s.value "display" with
  | some (Value.Keyword kw) =>
      if kw = "block" then Display.Block
      else if kw = "none" then Display.None
      else Display.Inline
  | _ => Display.Inline

/-- `StyledNode::lookup` from `style.rs`. -/
def StyledNode.lookup (s : StyledNode) (name fallback_name : String) (defaultValue : Value) : Value :=
  ((s.value name).getD ((s.value fallback_name).getD defaultValue))

/-- `MatchedRule` from `style.rs`. -/
abbrev MatchedRule := Specificity × Rule

/-- `matches_simple_selector` from `style.rs`: tag, id and class tests are a
pure boolean conjunction. -/
def matches_simple_selector (elem : ElementData) (selector : SimpleSelector) : Bool :=
  if selector.tag_name.any (fun name => elem.tag_name != name) then false
  else if selector.id.any (fun i => elem.id != some i) then false
  else if selector.«class».any (fun c => !(elem.classes.contains c)) then false
  else true

/-- `matches` from `style.rs` (quoted: `matches` is a Lean keyword). -/
def «matches» (elem : ElementData) (selector : Selector) : Bool :=
  match selector with
  | Selector.Simple simple_selector => matches_simple_selector elem simple_selector

/-- `match_rule` from `style.rs`: the first matching selector of the rule
provides the specificity. -/
def match_rule (elem : ElementData) (rule : Rule) : Option MatchedRule :=
  (rule.selectors.find? (fun selector => «matches» elem selector)).map
    (fun selector => (selector.specificity, rule))

/-- `matching_rules` from `style.rs`. -/
def matching_rules (elem : ElementData) (stylesheet : Stylesheet) : List MatchedRule :=
  stylesheet.rules.filterMap (fun rule => match_rule elem rule)

/-- The comparison used by `rules.sort_by(|&(a, _), &(b, _)| a.cmp(&b))`:
only the specificity component is compared. -/
def matchedRuleLE (a b : MatchedRule) : Prop := specLE a.1 b.1

instance : DecidableRel matchedRuleLE := fun a b => by
  unfold matchedRuleLE; infer_instance

instance : IsTotal MatchedRule matchedRuleLE :=
  ⟨fun a b => IsTotal.total (r := specLE) a.1 b.1⟩

instance : IsTrans MatchedRule matchedRuleLE :=
  ⟨fun _ _ _ h₁ h₂ => IsTrans.trans (r := specLE) _ _ _ h₁ h₂⟩

/-- `specified_values` from `style.rs`: collect the matching rules, sort them
ascending by specificity with a stable sort, and insert the declarations in
that order into the property map. -/
def specified_values (elem : ElementData) (stylesheet : Stylesheet) : PropertyMap :=
  let rules := matching_rules elem stylesheet
  let sorted := List.insertionSort matchedRuleLE rules
  sorted.foldl
    (fun values mr =>
      mr.2.declarations.foldl
        (fun values declaration => PropertyMap.insert values declaration.name declaration.value)
        values)
    []

end Style

namespace Layout

open CSS Style

/-- `Rect` from `layout.rs`. -/
structure Rect where
  x : ℚ
  y : ℚ
  width : ℚ
  height : ℚ
deriving DecidableEq, Repr

/-- `#[derive(Default)]` zero rectangle. -/
instance : Inhabited Rect := ⟨{ x := 0, y := 0, width := 0, height := 0 }⟩

/-- `EdgeSizes` from `layout.rs`. -/
structure EdgeSizes where
  left : ℚ
  right : ℚ
  top : ℚ
  bottom : ℚ
deriving DecidableEq, Repr

/-- `#[derive(Default)]` zero edges. -/
instance : Inhabited EdgeSizes := ⟨{ left := 0, right := 0, top := 0, bottom := 0 }⟩

/-- `Dimensions` from `layout.rs`. -/
structure Dimensions where
  content : Rect
  padding : EdgeSizes
  border : EdgeSizes
  margin : EdgeSizes
deriving DecidableEq, Repr

/-- `#[derive(Default)]` all-zero dimensions. -/
instance : Inhabited Dimensions :=
  ⟨{ content := default, padding := default, border := default, margin := default }⟩

/-- `Rect::expanded_by` from `layout.rs`. -/
def Rect.expanded_by (self : Rect) (edge : EdgeSizes) : Rect :=
  { x := self.x - edge.left
    y := self.y - edge.top
    width := self.width + edge.left + edge.right
    height := self.height + edge.top + edge.bottom }

/-- `Dimensions::padding_box` from `layout.rs`. -/
def Dimensions.padding_box (self : Dimensions) : Rect :=
  self.content.expanded_by self.padding

/-- `Dimensions::border_box` from `layout.rs`. -/
def Dimensions.border_box (self : Dimensions) : Rect :=
  self.padding_box.expanded_by self.border

/-- `Dimensions::margin_box` from `layout.rs`. -/
def Dimensions.margin_box (self : Dimensions) : Rect :=
  self.border_box.expanded_by self.margin

/-- `BoxType` from `layout.rs`; the styled node is held by value instead of
by reference. -/
inductive BoxType where
  | BlockNode (node : StyledNode)
  | InlineNode (node : StyledNode)
  | AnonymousBlock

/-- `LayoutBox` from `layout.rs`. -/
inductive LayoutBox where
  | mk (dimensions : Dimensions) (box_type : BoxType) (children : List LayoutBox)

/-- Field accessor for `LayoutBox.dimensions`. -/
def LayoutBox.dimensions : LayoutBox → Dimensions
  | LayoutBox.mk d _ _ => d

/-- Field accessor for `LayoutBox.box_type`. -/
def LayoutBox.box_type : LayoutBox → BoxType
  | LayoutBox.mk _ bt _ => bt

/-- Field accessor for `LayoutBox.children`. -/
def LayoutBox.children : LayoutBox → List LayoutBox
  | LayoutBox.mk _ _ children => children

/-- `LayoutBox::new` from `layout.rs`. -/
def LayoutBox.new (box_type : BoxType) : LayoutBox :=
  LayoutBox.mk default box_type []

/-- `LayoutBox::get_style_node` from `layout.rs`; the `AnonymousBlock` arm is
`panic!("Anonymous block box has no style node")`, modelled as `none`. -/
def LayoutBox.get_style_node : LayoutBox → Option StyledNode
  | LayoutBox.mk _ (BoxType.BlockNode node) _ => some node
  | LayoutBox.mk _ (BoxType.InlineNode node) _ => some node
  | LayoutBox.mk _ BoxType.AnonymousBlock _ => none

/-- `LayoutBox::get_inline_container` from `layout.rs` combined with the
`push` done on its result in `build_layout_tree`: on an inline or anonymous
box the child is appended directly; on a block box it is appended to the
trailing anonymous child, which is reused when the last child is already an
`AnonymousBlock` and freshly created (and appended) otherwise. -/
def push_inline_child (self child : LayoutBox) : LayoutBox :=
  match self with
  | LayoutBox.mk d bt children =>
    match bt with
    | BoxType.InlineNode _ | BoxType.AnonymousBlock =>
        LayoutBox.mk d bt (children ++ [child])
    | BoxType.BlockNode _ =>
        match children.getLast? with
        | some (LayoutBox.mk d2 BoxType.AnonymousBlock inner) =>
            LayoutBox.mk d bt
              (children.dropLast ++ [LayoutBox.mk d2 BoxType.AnonymousBlock (inner ++ [child])])
        | _ =>
            LayoutBox.mk d bt (children ++ [LayoutBox.mk default BoxType.AnonymousBlock [child]])

/-- `root.children.push(child)` for a `display: block` child. -/
def push_block_child (self child : LayoutBox) : LayoutBox :=
  match self with
  | LayoutBox.mk d bt children => LayoutBox.mk d bt (children ++ [child])

mutual

/-- `build_layout_tree` from `layout.rs`. A root whose display is `none` is
`panic!("Root node has display: none.")`, modelled as `none`; block and
inline children are pushed (inline ones through the inline container) and
`display: none` children are skipped. -/
def build_layout_tree : StyledNode → Option LayoutBox
  | StyledNode.mk values children =>
      match (StyledNode.mk values children).display with
      | Display.Block =>
          build_children (LayoutBox.new (BoxType.BlockNode (StyledNode.mk values children))) children
      | Display.Inline =>
          build_children (LayoutBox.new (BoxType.InlineNode (StyledNode.mk values children))) children
      | Display.None => none

/-- The child loop of `build_layout_tree`; a `none` from a recursive call
(a panic) is propagated. -/
def build_children (root : LayoutBox) : List StyledNode → Option LayoutBox
  | [] => some root
  | child :: rest =>
      match child.display with
      | Display.Block =>
          match build_layout_tree child with
          | some childBox => build_children (push_block_child root childBox) rest
          | none => none
      | Display.Inline =>
          match build_layout_tree child with
          | some childBox => build_children (push_inline_child root childBox) rest
          | none => none
      | Display.None => build_children root rest

end

/-- The `width` default `auto` from `calculate_block_width`. -/
def auto : Value := Value.Keyword "auto"

/-- The zero length from `calculate_block_width`. -/
def zeroLength : Value := Value.Length 0 Unit.Px

/-- `width` as read by `calculate_block_width`. -/
def width_value (style : StyledNode) : Value :=
  (style.value "width").getD auto

/-- `margin_left` as read by `calculate_block_width`. -/
def margin_left_value (style : StyledNode) : Value :=
  style.lookup "margin-left" "margin" zeroLength

/-- `margin_right` as read by `calculate_block_width`. -/
def margin_right_value (style : StyledNode) : Value :=
  style.lookup "margin-right" "margin" zeroLength

/-- `border_left` as read by `calculate_block_width`. -/
def border_left_value (style : StyledNode) : Value :=
  style.lookup "border-left-width" "border-width" zeroLength

/-- `border_right` as read by `calculate_block_width`. -/
def border_right_value (style : StyledNode) : Value :=
  style.lookup "border-right-width" "border-width" zeroLength

/-- `padding_left` as read by `calculate_block_width`. -/
def padding_left_value (style : StyledNode) : Value :=
  style.lookup "padding-left" "padding" zeroLength

/-- `padding_right` as read by `calculate_block_width`. -/
def padding_right_value (style : StyledNode) : Value :=
  style.lookup "padding-right" "padding" zeroLength

/-- `total` from `calculate_block_width`: the sum of the `to_px` values of
the six edges and the width, in source order. -/
def total_width (style : StyledNode) : ℚ :=
  (margin_left_value style).to_px + (margin_right_value style).to_px +
    (border_left_value style).to_px + (border_right_value style).to_px +
    (padding_left_value style).to_px + (padding_right_value style).to_px +
    (width_value style).to_px

/-- `margin_left` after the over-constrained shrink rule: forced to zero when
`width` is not auto, `total` exceeds the containing width and the margin was
auto. -/
def shrunk_margin_left (style : StyledNode) (containing_block : Dimensions) : Value :=
  if width_value style ≠ auto ∧ total_width style > containing_block.content.width ∧
      margin_left_value style = auto
  then zeroLength else margin_left_value style

/-- `margin_right` after the over-constrained shrink rule. -/
def shrunk_margin_right (style : StyledNode) (containing_block : Dimensions) : Value :=
  if width_value style ≠ auto ∧ total_width style > containing_block.content.width ∧
      margin_right_value style = auto
  then zeroLength else margin_right_value style

/-- `underflow` from `calculate_block_width`. -/
def underflow (style : StyledNode) (containing_block : Dimensions) : ℚ :=
  containing_block.content.width - total_width style

/-- `LayoutBox::calculate_block_width` from `layout.rs`, as a function of the
style node, the current dimensions and the containing block. -/
def calculate_block_width (style : StyledNode) (d : Dimensions)
    (containing_block : Dimensions) : Dimensions :=
  let width := width_value style
  let margin_left := shrunk_margin_left style containing_block
  let margin_right := shrunk_margin_right style containing_block
  let u := underflow style containing_block
  let resolved :=
    match width == auto, margin_left == auto, margin_right == auto with
    | false, false, false =>
        (width, margin_left, Value.Length (margin_right.to_px + u) Unit.Px)
    | false, false, true =>
        (width, margin_left, Value.Length u Unit.Px)
    | false, true, false =>
        (width, Value.Length u Unit.Px, margin_right)
    | true, _, _ =>
        let margin_left := if margin_left == auto then Value.Length 0 Unit.Px else margin_left
        let margin_right := if margin_right == auto then Value.Length 0 Unit.Px else margin_right
        if u ≥ 0 then
          (Value.Length u Unit.Px, margin_left, margin_right)
        else
          (Value.Length 0 Unit.Px, margin_left,
            Value.Length (margin_right.to_px + u) Unit.Px)
    | false, true, true =>
        (width, Value.Length (u / 2) Unit.Px, Value.Length (u / 2) Unit.Px)
  { d with
      content.width := resolved.1.to_px
      padding.left := (padding_left_value style).to_px
      padding.right := (padding_right_value style).to_px
      border.left := (border_left_value style).to_px
      border.right := (border_right_value style).to_px
      margin.left := resolved.2.1.to_px
      margin.right := resolved.2.2.to_px }

/-- `LayoutBox::calculate_block_position` from `layout.rs`. -/
def calculate_block_position (style : StyledNode) (d : Dimensions)
    (containing_block : Dimensions) : Dimensions :=
  let d1 := { d with
    margin.top := (style.lookup "margin-top" "margin" zeroLength).to_px
    margin.bottom := (style.lookup "margin-bottom" "margin" zeroLength).to_px
    border.top := (style.lookup "border-top-width" "border-width" zeroLength).to_px
    border.bottom := (style.lookup "border-bottom-width" "border-width" zeroLength).to_px
    padding.top := (style.lookup "padding-top" "padding" zeroLength).to_px
    padding.bottom := (style.lookup "padding-bottom" "padding" zeroLength).to_px }
  { d1 with
    content.x := containing_block.content.x + d1.margin.left + d1.border.left + d1.padding.left
    content.y := containing_block.content.y + d1.margin.top + d1.border.top + d1.padding.top }

/-- `LayoutBox::calculate_block_height` from `layout.rs`: an explicit pixel
height overrides the accumulated content height. -/
def calculate_block_height (style : StyledNode) (d : Dimensions) : Dimensions :=
  match style.value "height" with
  | some (Value.Length h Unit.Px) => { d with content.height := h }
  | _ => d

mutual

/-- `LayoutBox::layout` from `layout.rs`: block boxes are laid out
(`layout_block` is inlined here: width, then position, then children, then
height); inline and anonymous boxes are untouched. -/
def layout (box : LayoutBox) (containing_block : Dimensions) : LayoutBox :=
  match box with
  | LayoutBox.mk d (BoxType.BlockNode node) children =>
      let d1 := calculate_block_width node d containing_block
      let d2 := calculate_block_position node d1 containing_block
      let after := layout_block_children d2 children
      let d4 := calculate_block_height node after.1
      LayoutBox.mk d4 (BoxType.BlockNode node) after.2
  | box => box

/-- `LayoutBox::layout_block_children` from `layout.rs`: each child is laid
out against the current dimensions and the content height then grows by the
child's margin-box height. -/
def layout_block_children (d : Dimensions) : List LayoutBox → Dimensions × List LayoutBox
  | [] => (d, [])
  | child :: rest =>
      let child' := layout child d
      let d' := { d with
        content.height := d.content.height + child'.dimensions.margin_box.height }
      let after := layout_block_children d' rest
      (after.1, child' :: after.2)

end

/-- `layout_tree` from `layout.rs`: the containing block's height is reset to
`0.0`, the tree is built (`none` when building panics) and laid out. -/
def layout_tree (node : StyledNode) (containing_block : Dimensions) : Option LayoutBox :=
  let cb := { containing_block with content.height := 0 }
  (build_layout_tree node).map (fun root => layout root cb)

end Layout

namespace Painting

open CSS Style Layout

/-- `DisplayCommand` from `painting.rs`. -/
inductive DisplayCommand where
  | SolidColor (color : Color) (rect : Rect)
deriving DecidableEq, Repr

/-- `DisplayList` from `painting.rs`. -/
abbrev DisplayList := List DisplayCommand

/-- `get_color` from `painting.rs`: block and inline boxes read the named
property from their style node; anonymous boxes have no color. -/
def get_color (layout_box : LayoutBox) (name : String) : Option Color :=
  match layout_box.box_type with
  | BoxType.BlockNode style | BoxType.InlineNode style =>
      match style.value name with
      | some (Value.ColorValue color) => some color
      | _ => none
  | BoxType.AnonymousBlock => none

/-- `render_background` from `painting.rs`: pushes one solid-color command
covering the border box when a `background` color is specified. -/
def render_background (list : DisplayList) (layout_box : LayoutBox) : DisplayList :=
  match get_color layout_box "background" with
  | some color =>
      list ++ [DisplayCommand.SolidColor color layout_box.dimensions.border_box]
  | none => list

/-- `render_borders` from `painting.rs`: pushes the left, right, top and
bottom border rectangles, in that order, when a `border-color` is specified;
pushes nothing otherwise. -/
def render_borders (list : DisplayList) (layout_box : LayoutBox) : DisplayList :=
  match get_color layout_box "border-color" with
  | none => list
  | some color =>
      let d := layout_box.dimensions
      let border_box := d.border_box
      list ++
        [DisplayCommand.SolidColor color
          { x := border_box.x, y := border_box.y,
            width := d.border.left, height := border_box.height },
         DisplayCommand.SolidColor color
          { x := border_box.x + border_box.width - d.border.right, y := border_box.y,
            width := d.border.right, height := border_box.height },
         DisplayCommand.SolidColor color
          { x := border_box.x, y := border_box.y,
            width := border_box.width, height := d.border.top },
         DisplayCommand.SolidColor color
          { x := border_box.x, y := border_box.y + border_box.height - d.border.bottom,
            width := border_box.width, height := d.border.bottom }]

mutual

/-- `render_layout_box` from `painting.rs`: background, then borders, then
the children in order, all appended to the accumulated list. -/
def render_layout_box (list : DisplayList) (layout_box : LayoutBox) : DisplayList :=
  match layout_box with
  | LayoutBox.mk d bt children =>
      render_children
        (render_borders (render_background list (LayoutBox.mk d bt children))
          (LayoutBox.mk d bt children))
        children

/-- The child loop of `render_layout_box`. -/
def render_children (list : DisplayList) : List LayoutBox → DisplayList
  | [] => list
  | child :: rest => render_children (render_layout_box list child) rest

end

/-- `build_display_list` from `painting.rs`. -/
def build_display_list (layout_root : LayoutBox) : DisplayList :=
  render_layout_box [] layout_root

/-- The commands a single box emits for itself, written the way the spec
describes them: one background fill over the border box if and only if a
`background` color is specified, followed by the four border edges in left,
right, top, bottom order if and only if a `border-color` is specified. -/
def box_own_commands (layout_box : LayoutBox) : DisplayList :=
  (match get_color layout_box "background" with
   | some color => [DisplayCommand.SolidColor color layout_box.dimensions.border_box]
   | none => []) ++
  (match get_color layout_box "border-color" with
   | none => []
   | some color =>
      let d := layout_box.dimensions
      let border_box := d.border_box
      [DisplayCommand.SolidColor color
        { x := border_box.x, y := border_box.y,
          width := d.border.left, height := border_box.height },
       DisplayCommand.SolidColor color
        { x := border_box.x + border_box.width - d.border.right, y := border_box.y,
          width := d.border.right, height := border_box.height },
       DisplayCommand.SolidColor color
        { x := border_box.x, y := border_box.y,
          width := border_box.width, height := d.border.top },
       DisplayCommand.SolidColor color
        { x := border_box.x, y := border_box.y + border_box.height - d.border.bottom,
          width := border_box.width, height := d.border.bottom }])

mutual

/-- The display list as the spec describes it: a pre-order traversal where
each box contributes its own commands followed by its children's, in order. -/
def display_list_spec : LayoutBox → DisplayList
  | LayoutBox.mk d bt children =>
      box_own_commands (LayoutBox.mk d bt children) ++ display_list_spec_children children

/-- Concatenation of the spec display lists of a list of boxes, in order. -/
def display_list_spec_children : List LayoutBox → DisplayList
  | [] => []
  | child :: rest => display_list_spec child ++ display_list_spec_children rest

end

/-- `Canvas` from `painting.rs`; the pixel vector is a list. -/
structure Canvas where
  pixels : List Color
  width : Nat
  height : Nat
deriving DecidableEq, Repr

/-- The opaque white every canvas pixel starts as. -/
def white : Color := { r := 255, g := 255, b := 255, a := 255 }

/-- `Canvas::new` from `painting.rs`. -/
def Canvas.new (width height : Nat) : Canvas :=
  { pixels := List.replicate (width * height) white, width := width, height := height }

/-- The local `Clamp` trait from `painting.rs`: `self.max(lower).min(upper)`. -/
def clamp (v lower upper : ℚ) : ℚ := min (max v lower) upper

/-- An indexed store into the pixel vector. `self.pixels[i] = color` panics
when `i` is out of bounds, modelled as `none`. -/
def set_pixel (pixels : List Color) (i : Nat) (color : Color) : Option (List Color) :=
  if i < pixels.length then some (pixels.set i color) else none

/-- A clamped coordinate cast with `as usize`: the value is already in
`[0, bound]`, so the cast is a floor. -/
def to_usize (q : ℚ) : Nat := ⌊q⌋.toNat

/-- `Canvas::paint_item` from `painting.rs`: the rectangle is clamped to the
canvas bounds and every covered pixel is overwritten, row by row (the `y`
loop) and column by column (the `x` loop). -/
def Canvas.paint_item (canvas : Canvas) (item : DisplayCommand) : Option Canvas :=
  match item with
  | DisplayCommand.SolidColor color rect =>
      let x0 := to_usize (clamp rect.x 0 (canvas.width : ℚ))
      let y0 := to_usize (clamp rect.y 0 (canvas.height : ℚ))
      let x1 := to_usize (clamp (rect.x + rect.width) 0 (canvas.width : ℚ))
      let y1 := to_usize (clamp (rect.y + rect.height) 0 (canvas.height : ℚ))
      ((List.range' y0 (y1 - y0)).foldlM
        (fun pixels y =>
          (List.range' x0 (x1 - x0)).foldlM
            (fun pixels x => set_pixel pixels (y * canvas.width + x) color)
            pixels)
        canvas.pixels).map
      (fun pixels => { canvas with pixels := pixels })

end Painting

namespace Style

open CSS HTML

/-- The value of the last declaration of property `p` in a declaration list:
the binding `HashMap::insert` leaves behind when the declarations are applied
in order. -/
def last_declaration_value : List Declaration → String → Option Value
  | [], _ => none
  | d :: ds, p =>
      match last_declaration_value ds p with
      | some v => some v
      | none => if d.name = p then some d.value else none

/-- The `(specificity, value)` contribution for property `p` of the last rule
in a matched-rule list that declares `p`. -/
def rules_last_entry : List MatchedRule → String → Option (Specificity × Value)
  | [], _ => none
  | (s, rule) :: rest, p =>
      match rules_last_entry rest p with
      | some e => some e
      | none => (last_declaration_value rule.declarations p).map (fun v => (s, v))

/-- The cascade winner as the spec describes it: scanning the matched rules
in source order, a later rule takes property `p` exactly when its specificity
is greater than or equal to the current holder's. Hence higher specificity
wins regardless of source order, and equal specificities resolve to the later
rule. -/
def cascade_winner_entry (p : String) : List MatchedRule → Option (Specificity × Value)
  | [] => none
  | (s, rule) :: rest =>
      let later := cascade_winner_entry p rest
      match last_declaration_value rule.declarations p with
      | none => later
      | some v =>
          match later with
          | none => some (s, v)
          | some (s0, v0) => if specLE s s0 then some (s0, v0) else some (s, v)

/-- The resolved value of property `p` according to `cascade_winner_entry`. -/
def cascade_winner (rules : List MatchedRule) (p : String) : Option Value :=
  (cascade_winner_entry p rules).map (fun e => e.2)

/-- Red, for the specificity example. -/
def red : Color := { r := 255, g := 0, b := 0, a := 255 }

/-- Blue, for the specificity example. -/
def blue : Color := { r := 0, g := 0, b := 255, a := 255 }

/-- An element with `id="x"` and `class="y"`. -/
def example_elem : HTML.ElementData :=
  { tag_name := "div", attributes := [("id", "x"), ("class", "y")] }

/-- The rule `#x { color: red }`. -/
def id_rule : Rule :=
  { selectors := [Selector.Simple { id := some "x", «class» := [], tag_name := none }],
    declarations := [{ name := "color", value := Value.ColorValue red }] }

/-- The rule `.y { color: blue }`. -/
def class_rule : Rule :=
  { selectors := [Selector.Simple { id := none, «class» := ["y"], tag_name := none }],
    declarations := [{ name := "color", value := Value.ColorValue blue }] }

end Style

namespace Layout

open CSS Style

mutual

/-- Every box of a layout tree in pre-order: the box itself followed by the
subboxes of its children. -/
def subboxes (box : LayoutBox) : List LayoutBox :=
  match box with
  | LayoutBox.mk d bt children => LayoutBox.mk d bt children :: subboxes_list children

/-- Concatenation of `subboxes` over a list of boxes. -/
def subboxes_list : List LayoutBox → List LayoutBox
  | [] => []
  | child :: rest => subboxes child ++ subboxes_list rest

end

/-- True exactly for inline and anonymous boxes. -/
def is_inline_or_anonymous (box : LayoutBox) : Bool :=
  match box.box_type with
  | BoxType.BlockNode _ => false
  | _ => true

/-- A layout (sub)tree in which every box has the all-zero default
dimensions. -/
def all_default_dims (box : LayoutBox) : Prop :=
  ∀ u ∈ subboxes box, u.dimensions = default

/-- A styled node with no properties; its display resolves to `inline`. -/
def inline_node : StyledNode := StyledNode.mk [] []

/-- A childless `display: block` styled node. -/
def block_leaf : StyledNode := StyledNode.mk [("display", Value.Keyword "block")] []

/-- A `display: none` styled node. -/
def none_node : StyledNode := StyledNode.mk [("display", Value.Keyword "none")] []

/-- A block parent whose four children resolve to the displays
inline, inline, block, inline. -/
def mixed_parent : StyledNode :=
  StyledNode.mk [("display", Value.Keyword "block")]
    [inline_node, inline_node, block_leaf, inline_node]

/-- A block parent with a single inline child. -/
def block_with_inline : StyledNode :=
  StyledNode.mk [("display", Value.Keyword "block")] [inline_node]

/-- A style with `width: 100px; margin-right: auto`. -/
def overconstrained_style : StyledNode :=
  StyledNode.mk [("width", Value.Length 100 Unit.Px), ("margin-right", Value.Keyword "auto")] []

/-- A containing block whose content is 50px wide. -/
def cb50 : Dimensions := { (default : Dimensions) with content.width := 50 }

/-- A containing block whose content is 200px wide. -/
def cb200 : Dimensions := { (default : Dimensions) with content.width := 200 }

end Layout
namespace Layout

open CSS Style

theorem auto_to_px : auto.to_px = 0 := rfl

theorem zeroLength_to_px : zeroLength.to_px = 0 := rfl

/-- Forcing an `auto` margin to the zero length does not change its `to_px`
value (`auto.to_px` is already `0`). -/
theorem shrunk_margin_left_to_px (style : StyledNode) (cb : Dimensions) :
    (shrunk_margin_left style cb).to_px = (margin_left_value style).to_px := by
  unfold shrunk_margin_left
  split
  · rename_i h
    rw [h.2.2]
    rfl
  · rfl

theorem shrunk_margin_right_to_px (style : StyledNode) (cb : Dimensions) :
    (shrunk_margin_right style cb).to_px = (margin_right_value style).to_px := by
  unfold shrunk_margin_right
  split
  · rename_i h
    rw [h.2.2]
    rfl
  · rfl

theorem zero_if_auto_to_px (v : Value) :
    (if v == auto then Value.Length 0 Unit.Px else v).to_px = v.to_px := by
  rcases h : v == auto with _ | _
  · simp [h]
  · have hv : v = auto := eq_of_beq h
    simp only [h, if_true, hv]
    rfl

/-- When `width` is auto the shrink rule does not fire. -/
theorem shrunk_margin_left_of_width_auto (style : StyledNode) (cb : Dimensions)
    (hw : width_value style = auto) :
    shrunk_margin_left style cb = margin_left_value style := by
  unfold shrunk_margin_left
  split
  · rename_i h
    exact absurd hw h.1
  · rfl

theorem shrunk_margin_right_of_width_auto (style : StyledNode) (cb : Dimensions)
    (hw : width_value style = auto) :
    shrunk_margin_right style cb = margin_right_value style := by
  unfold shrunk_margin_right
  split
  · rename_i h
    exact absurd hw h.1
  · rfl

end Layout

namespace Layout

open CSS Style

/-- A pixel length's `to_px` is its magnitude. -/
theorem to_px_length (f : ℚ) : (Value.Length f Unit.Px).to_px = f := rfl

/-- C1: for every Block box laid out against a containing block, after width
resolution the seven horizontal lengths `margin.left + border.left +
padding.left + content.width + padding.right + border.right + margin.right`
sum exactly to the containing block's content width (this holds in every
branch of the auto-resolution, so in particular whenever the width was not
over-constrained-forced). -/
theorem C1_block_width_fills_container (style : StyledNode) (d containing_block : Dimensions) :
    (calculate_block_width style d containing_block).margin.left +
      (calculate_block_width style d containing_block).border.left +
      (calculate_block_width style d containing_block).padding.left +
      (calculate_block_width style d containing_block).content.width +
      (calculate_block_width style d containing_block).padding.right +
      (calculate_block_width style d containing_block).border.right +
      (calculate_block_width style d containing_block).margin.right
      = containing_block.content.width := by
  have ht : total_width style =
      (margin_left_value style).to_px + (margin_right_value style).to_px +
        (border_left_value style).to_px + (border_right_value style).to_px +
        (padding_left_value style).to_px + (padding_right_value style).to_px +
        (width_value style).to_px := rfl
  have hu : underflow style containing_block
      = containing_block.content.width - total_width style := rfl
  have hml := shrunk_margin_left_to_px style containing_block
  have hmr := shrunk_margin_right_to_px style containing_block
  simp only [calculate_block_width]
  rcases hw : (width_value style == auto) with _ | _
  · rcases hl : (shrunk_margin_left style containing_block == auto) with _ | _
    · rcases hr : (shrunk_margin_right style containing_block == auto) with _ | _
      · simp [hw, hl, hr, to_px_length]
        linarith
      · have hr0 : (shrunk_margin_right style containing_block).to_px = 0 := by
          rw [eq_of_beq hr]; rfl
        simp [hw, hl, hr, to_px_length]
        linarith
    · rcases hr : (shrunk_margin_right style containing_block == auto) with _ | _
      · have hl0 : (shrunk_margin_left style containing_block).to_px = 0 := by
          rw [eq_of_beq hl]; rfl
        simp [hw, hl, hr, to_px_length]
        linarith
      · have hl0 : (shrunk_margin_left style containing_block).to_px = 0 := by
          rw [eq_of_beq hl]; rfl
        have hr0 : (shrunk_margin_right style containing_block).to_px = 0 := by
          rw [eq_of_beq hr]; rfl
        simp [hw, hl, hr, to_px_length]
        linarith
  · have hw0 : (width_value style).to_px = 0 := by
      rw [eq_of_beq hw]; rfl
    rcases hl : (shrunk_margin_left style containing_block == auto) with _ | _ <;>
      rcases hr : (shrunk_margin_right style containing_block == auto) with _ | _ <;>
        [skip; skip; skip; skip] <;>
      first
      | (have hl0 : (shrunk_margin_left style containing_block).to_px = 0 := by
            rw [eq_of_beq hl]; rfl
         have hr0 : (shrunk_margin_right style containing_block).to_px = 0 := by
            rw [eq_of_beq hr]; rfl
         simp [hw, hl, hr, to_px_length]
         split_ifs with hu0 <;> simp [to_px_length] <;> linarith)
      | (have hl0 : (shrunk_margin_left style containing_block).to_px = 0 := by
            rw [eq_of_beq hl]; rfl
         simp [hw, hl, hr, to_px_length]
         split_ifs with hu0 <;> simp [to_px_length] <;> linarith)
      | (have hr0 : (shrunk_margin_right style containing_block).to_px = 0 := by
            rw [eq_of_beq hr]; rfl
         simp [hw, hl, hr, to_px_length]
         split_ifs with hu0 <;> simp [to_px_length] <;> linarith)
      | (simp [hw, hl, hr, to_px_length]
         split_ifs with hu0 <;> simp [to_px_length] <;> linarith)

end Layout

namespace Layout

open CSS Style

/-- C2: when `width`, `margin-left` and `margin-right` are all non-auto after
the shrink rule, width resolution sets `margin.right` to that (possibly just
zero-forced) margin's value plus `underflow = containing width − total`, even
when the result is negative. -/
theorem C2_overconstrained_absorbs_into_margin_right
    (style : StyledNode) (d containing_block : Dimensions)
    (hw : width_value style ≠ auto)
    (hml : shrunk_margin_left style containing_block ≠ auto)
    (hmr : shrunk_margin_right style containing_block ≠ auto) :
    (calculate_block_width style d containing_block).margin.right
      = (shrunk_margin_right style containing_block).to_px
          + underflow style containing_block := by
  have hw' : (width_value style == auto) = false := by
    exact beq_eq_false_iff_ne.mpr hw
  have hml' : (shrunk_margin_left style containing_block == auto) = false := by
    exact beq_eq_false_iff_ne.mpr hml
  have hmr' : (shrunk_margin_right style containing_block == auto) = false := by
    exact beq_eq_false_iff_ne.mpr hmr
  simp [calculate_block_width, hw', hml', hmr', to_px_length]

/-- C2 witness: `width: 100px; margin-right: auto` in a 50px containing block
is over-constrained, the shrink rule forces the auto margin-right to zero,
and the general branch still adds the negative underflow to it. -/
theorem C2_overconstrained_witness :
    (calculate_block_width overconstrained_style default cb50).margin.right
      = (shrunk_margin_right overconstrained_style cb50).to_px
          + underflow overconstrained_style cb50 := by
  have hml_v : margin_left_value overconstrained_style = zeroLength := rfl
  have hmr_v : margin_right_value overconstrained_style = auto := rfl
  have hwv : width_value overconstrained_style = Value.Length 100 Unit.Px := rfl
  have ht : total_width overconstrained_style = 100 := by
    rw [total_width, hml_v, hmr_v, hwv]
    rw [show border_left_value overconstrained_style = zeroLength from rfl]
    rw [show border_right_value overconstrained_style = zeroLength from rfl]
    rw [show padding_left_value overconstrained_style = zeroLength from rfl]
    rw [show padding_right_value overconstrained_style = zeroLength from rfl]
    rw [zeroLength_to_px, auto_to_px, to_px_length]
    norm_num
  have hcond : width_value overconstrained_style ≠ auto ∧
      total_width overconstrained_style > cb50.content.width ∧
      margin_right_value overconstrained_style = auto := by
    refine ⟨?_, ?_, hmr_v⟩
    · rw [hwv]
      intro h
      exact absurd h (by decide)
    · rw [ht, show cb50.content.width = 50 from rfl]
      norm_num
  have hsr : shrunk_margin_right overconstrained_style cb50 = zeroLength := by
    rw [shrunk_margin_right, if_pos hcond]
  have hsl : shrunk_margin_left overconstrained_style cb50 = zeroLength := by
    rw [shrunk_margin_left, if_neg]
    · exact hml_v
    · intro h
      exact absurd (hml_v ▸ h.2.2) (by decide)
  exact C2_overconstrained_absorbs_into_margin_right overconstrained_style default cb50
    (by rw [hwv]; intro h; exact absurd h (by decide))
    (by rw [hsl]; intro h; exact absurd h (by decide))
    (by rw [hsr]; intro h; exact absurd h (by decide))

end Layout

namespace Layout

open CSS Style

/-- C3: when `width` resolves to auto, width resolution zeroes the auto
margins and then: with non-negative underflow the content width becomes
exactly the underflow (the box fills its container); with negative underflow
the content width becomes `0` and margin-right absorbs the negative
underflow on top of its (possibly just-zeroed) value. -/
theorem C3_auto_width_resolution (style : StyledNode) (d containing_block : Dimensions)
    (hw : width_value style = auto) :
    (margin_left_value style = auto →
        (calculate_block_width style d containing_block).margin.left = 0) ∧
    (margin_right_value style = auto → 0 ≤ underflow style containing_block →
        (calculate_block_width style d containing_block).margin.right = 0) ∧
    (0 ≤ underflow style containing_block →
        (calculate_block_width style d containing_block).content.width
          = underflow style containing_block) ∧
    (underflow style containing_block < 0 →
        (calculate_block_width style d containing_block).content.width = 0 ∧
        (calculate_block_width style d containing_block).margin.right
          = (if margin_right_value style = auto then 0 else (margin_right_value style).to_px)
            + underflow style containing_block) := by
  have hw' : (width_value style == auto) = true := beq_iff_eq.mpr hw
  have hsl := shrunk_margin_left_of_width_auto style containing_block hw
  have hsr := shrunk_margin_right_of_width_auto style containing_block hw
  refine ⟨?_, ?_, ?_, ?_⟩
  · intro hml
    have hml' : (margin_left_value style == auto) = true := beq_iff_eq.mpr hml
    simp only [calculate_block_width, hw', hsl, hsr, hml']
    split_ifs <;> simp [to_px_length]
  · intro hmr2 hu
    have hmr' : (margin_right_value style == auto) = true := beq_iff_eq.mpr hmr2
    simp only [calculate_block_width, hw', hsl, hsr, hmr']
    rw [if_pos hu]
    simp [to_px_length]
  · intro hu
    simp only [calculate_block_width, hw', hsl, hsr]
    rw [if_pos hu]
    simp [to_px_length]
  · intro hu
    simp only [calculate_block_width, hw', hsl, hsr]
    rw [if_neg (not_le.mpr hu)]
    rcases hmr : (margin_right_value style == auto) with _ | _
    · have hne : ¬ margin_right_value style = auto := by
        intro h
        rw [beq_iff_eq.mpr h] at hmr
        cases hmr
      simp [to_px_length, hmr, hne]
    · have heq : margin_right_value style = auto := eq_of_beq hmr
      simp [to_px_length, hmr, heq, auto_to_px]

/-- C3 witness: a box with width auto and no specified margins, border or
padding inside a 200px containing block resolves to content width exactly
200px. -/
theorem C3_auto_width_witness :
    (calculate_block_width inline_node default cb200).content.width = 200 := by
  have htw : total_width inline_node = 0 := by
    rw [total_width]
    rw [show margin_left_value inline_node = zeroLength from rfl]
    rw [show margin_right_value inline_node = zeroLength from rfl]
    rw [show border_left_value inline_node = zeroLength from rfl]
    rw [show border_right_value inline_node = zeroLength from rfl]
    rw [show padding_left_value inline_node = zeroLength from rfl]
    rw [show padding_right_value inline_node = zeroLength from rfl]
    rw [show width_value inline_node = auto from rfl]
    rw [zeroLength_to_px, auto_to_px]
    norm_num
  have hu : underflow inline_node cb200 = 200 := by
    rw [underflow, htw, show cb200.content.width = 200 from rfl]
    norm_num
  have h := (C3_auto_width_resolution inline_node default cb200 rfl).2.2.1
    (by rw [hu]; norm_num)
  rw [h, hu]

end Layout

namespace Style

open CSS HTML

/-- Looking a property up after folding a rule's declarations into the map:
the rule's last declaration of the property wins, otherwise the map is
unchanged at that key. -/
theorem get_foldl_declarations (ds : List Declaration) (values : PropertyMap) (p : String) :
    PropertyMap.get
        (ds.foldl (fun v d => PropertyMap.insert v d.name d.value) values) p
      = match last_declaration_value ds p with
        | some v => some v
        | none => PropertyMap.get values p := by
  induction ds generalizing values with
  | nil => rfl
  | cons d ds ih =>
      rw [List.foldl_cons, ih]
      have hins : PropertyMap.get (PropertyMap.insert values d.name d.value) p
          = if d.name = p then some d.value else PropertyMap.get values p := by
        unfold PropertyMap.insert PropertyMap.get
        by_cases h : d.name = p
        · simp [List.find?, h]
        · simp [List.find?, beq_eq_false_iff_ne.mpr h, h]
      rw [hins]
      rcases hld : last_declaration_value ds p with _ | v
      · simp only [last_declaration_value, hld]
        by_cases hdp : d.name = p <;> simp [hdp]
      · simp only [last_declaration_value, hld]

/-- Looking a property up after folding a list of matched rules into the map:
the last rule in the list that declares the property wins, otherwise the map
is unchanged at that key. -/
theorem get_foldl_rules (rules : List MatchedRule) (values : PropertyMap) (p : String) :
    PropertyMap.get
        (rules.foldl
          (fun values mr =>
            mr.2.declarations.foldl
              (fun values declaration =>
                PropertyMap.insert values declaration.name declaration.value)
              values)
          values) p
      = match rules_last_entry rules p with
        | some e => some e.2
        | none => PropertyMap.get values p := by
  induction rules generalizing values with
  | nil => rfl
  | cons r rs ih =>
      rw [List.foldl_cons, ih, get_foldl_declarations]
      rcases r with ⟨s, rule⟩
      rcases hr : rules_last_entry rs p with _ | e
      · rcases hd : last_declaration_value rule.declarations p with _ | v
        · simp [rules_last_entry, hr, hd]
        · simp [rules_last_entry, hr, hd]
      · simp [rules_last_entry, hr]

/-- A produced last entry comes from some list element with that
specificity. -/
theorem rules_last_entry_mem (S : List MatchedRule) (p : String)
    (e : Specificity × Value) (h : rules_last_entry S p = some e) :
    ∃ y ∈ S, y.1 = e.1 := by
  induction S with
  | nil => cases h
  | cons x rest ih =>
      rcases x with ⟨s, rule⟩
      rw [rules_last_entry] at h
      rcases hr : rules_last_entry rest p with _ | e'
      · rw [hr] at h
        rcases hd : last_declaration_value rule.declarations p with _ | v
        · rw [hd] at h
          cases h
        · rw [hd] at h
          simp only [Option.map_some', Option.some_inj] at h
          exact ⟨(s, rule), List.mem_cons_self _ _, by rw [← h]⟩
      · rw [hr] at h
        have he : e' = e := Option.some_inj.mp h
        rcases ih (by rw [hr, he]) with ⟨y, hy, hy1⟩
        exact ⟨y, List.mem_cons_of_mem _ hy, hy1⟩

/-- The key stability step: inserting a matched rule into a sorted
matched-rule list changes the last entry for `p` exactly the way the
spec-side cascade combine does: the inserted rule takes the property when it
declares it and its specificity is strictly greater than the current
holder's; a holder with greater-or-equal specificity (which, by stability,
is a source-later rule when equal) keeps it. -/
theorem rules_last_entry_orderedInsert (x : MatchedRule) (S : List MatchedRule) (p : String)
    (hS : List.Sorted matchedRuleLE S) :
    rules_last_entry (List.orderedInsert matchedRuleLE x S) p
      = match last_declaration_value x.2.declarations p with
        | none => rules_last_entry S p
        | some v =>
          match rules_last_entry S p with
          | none => some (x.1, v)
          | some e => if specLE x.1 e.1 then some e else some (x.1, v) := by
  rcases x with ⟨sx, rulex⟩
  induction S with
  | nil =>
      rcases hd : last_declaration_value rulex.declarations p with _ | v <;>
        simp [List.orderedInsert, rules_last_entry, hd]
  | cons y S' ih =>
      have hy : ∀ z ∈ S', matchedRuleLE y z := (List.sorted_cons.mp hS).1
      have hS' : List.Sorted matchedRuleLE S' := (List.sorted_cons.mp hS).2
      by_cases h : matchedRuleLE (sx, rulex) y
      · simp only [List.orderedInsert]
        rw [if_pos h]
        rw [rules_last_entry]
        rcases hx : last_declaration_value rulex.declarations p with _ | v
        · rcases hys : rules_last_entry (y :: S') p with _ | e <;> simp [hys, hx]
        · rcases hys : rules_last_entry (y :: S') p with _ | e
          · simp [hys, hx]
          · rcases rules_last_entry_mem _ _ _ hys with ⟨z, hz, hz1⟩
            have hse : specLE sx e.1 := by
              rcases List.mem_cons.mp hz with hz' | hz'
              · rw [← hz1, hz']
                exact h
              · have h1 : matchedRuleLE y z := hy z hz'
                have h2 : matchedRuleLE (sx, rulex) z :=
                  IsTrans.trans (r := matchedRuleLE) _ _ _ h h1
                rw [← hz1]
                exact h2
            simp [hys, hx, hse]
      · rcases y with ⟨sy, ry⟩
        simp only [List.orderedInsert]
        rw [if_neg h]
        rw [rules_last_entry]
        rw [ih hS']
        rcases hx : last_declaration_value rulex.declarations p with _ | v
        · simp [hx, rules_last_entry]
        · rcases hs : rules_last_entry S' p with _ | e
          · rcases hyd : last_declaration_value ry.declarations p with _ | vy
            · simp [hx, hs, hyd, rules_last_entry]
            · have hns : ¬ specLE sx sy := h
              simp [hx, hs, hyd, rules_last_entry, hns]
          · simp only [hx, hs, rules_last_entry]
            by_cases hse : specLE sx e.1 <;> simp [hse]

/-- After the stable ascending insertion sort, the last rule declaring `p`
is exactly the spec-side cascade winner. -/
theorem rules_last_entry_insertionSort (M : List MatchedRule) (p : String) :
    rules_last_entry (List.insertionSort matchedRuleLE M) p = cascade_winner_entry p M := by
  induction M with
  | nil => rfl
  | cons x M ih =>
      rw [List.insertionSort]
      rw [rules_last_entry_orderedInsert x _ p (List.sorted_insertionSort matchedRuleLE M)]
      rw [ih]
      rcases x with ⟨s, rule⟩
      simp only [cascade_winner_entry]
      rcases hd : last_declaration_value rule.declarations p with _ | v <;> simp only [hd] <;>
        rcases hw : cascade_winner_entry p M with _ | ⟨s0, v0⟩ <;> simp [hw]

/-- C4: style resolution applies the declarations of all matching rules in
ascending order of the specificity of each rule's first matching selector,
with the stable sort breaking specificity ties by stylesheet order; hence
for every element, stylesheet and property the resolved value is the
cascade winner (higher specificity beats source order, equal specificity
resolves to the later rule), and in particular `#x {color: red}` and
`.y {color: blue}` both matching one element resolve to red in either
source order. -/
theorem C4_cascade_specificity_order :
    (∀ (elem : ElementData) (stylesheet : Stylesheet) (p : String),
        PropertyMap.get (specified_values elem stylesheet) p
          = cascade_winner (matching_rules elem stylesheet) p) ∧
    (PropertyMap.get (specified_values example_elem (Stylesheet.mk [id_rule, class_rule])) "color"
        = some (Value.ColorValue red) ∧
     PropertyMap.get (specified_values example_elem (Stylesheet.mk [class_rule, id_rule])) "color"
        = some (Value.ColorValue red)) := by
  constructor
  · intro elem stylesheet p
    simp only [specified_values, cascade_winner]
    rw [get_foldl_rules]
    rw [rules_last_entry_insertionSort]
    rcases cascade_winner_entry p (matching_rules elem stylesheet) with _ | e <;>
      simp [PropertyMap.get]
  · exact ⟨by decide, by decide⟩

end Style

namespace Style

/-- Strong induction for `StyledNode` giving the hypothesis on all direct
children. -/
theorem styled_node_strong_induction {motive : StyledNode → Prop}
    (h : ∀ values children, (∀ c ∈ children, motive c) → motive (StyledNode.mk values children)) :
    ∀ s, motive s := by
  have H : ∀ n (s : StyledNode), sizeOf s ≤ n → motive s := by
    intro n
    induction n with
    | zero =>
        intro s hs
        rcases s with ⟨v, c⟩
        have h2 : sizeOf (StyledNode.mk v c) = 1 + sizeOf v + sizeOf c := by simp
        omega
    | succ n ih =>
        intro s hs
        rcases s with ⟨v, c⟩
        refine h v c (fun x hx => ih x ?_)
        have h1 := List.sizeOf_lt_of_mem hx
        have h2 : sizeOf (StyledNode.mk v c) = 1 + sizeOf v + sizeOf c := by simp
        omega
  exact fun s => H (sizeOf s) s le_rfl

end Style

namespace Layout

open CSS Style

/-- Strong induction for `LayoutBox` giving the hypothesis on all direct
children. -/
theorem layout_box_strong_induction {motive : LayoutBox → Prop}
    (h : ∀ d bt children, (∀ c ∈ children, motive c) → motive (LayoutBox.mk d bt children)) :
    ∀ b, motive b := by
  have H : ∀ n (b : LayoutBox), sizeOf b ≤ n → motive b := by
    intro n
    induction n with
    | zero =>
        intro b hb
        rcases b with ⟨d, bt, c⟩
        have h2 : sizeOf (LayoutBox.mk d bt c) = 1 + sizeOf d + sizeOf bt + sizeOf c := by simp
        omega
    | succ n ih =>
        intro b hb
        rcases b with ⟨d, bt, c⟩
        refine h d bt c (fun x hx => ih x ?_)
        have h1 := List.sizeOf_lt_of_mem hx
        have h2 : sizeOf (LayoutBox.mk d bt c) = 1 + sizeOf d + sizeOf bt + sizeOf c := by simp
        omega
  exact fun b => H (sizeOf b) b le_rfl

/-- Appending through the inline container preserves the box's dimensions
and type. -/
theorem push_inline_child_shape (d : Dimensions) (bt : BoxType) (ch : List LayoutBox)
    (child : LayoutBox) :
    ∃ ch2, push_inline_child (LayoutBox.mk d bt ch) child = LayoutBox.mk d bt ch2 := by
  cases bt with
  | BlockNode s =>
      rcases hl : ch.getLast? with _ | last
      · exact ⟨ch ++ [LayoutBox.mk default BoxType.AnonymousBlock [child]],
          by simp [push_inline_child, hl]⟩
      · rcases last with ⟨d2, bt2, inner⟩
        cases bt2 with
        | BlockNode s2 =>
            exact ⟨ch ++ [LayoutBox.mk default BoxType.AnonymousBlock [child]],
              by simp [push_inline_child, hl]⟩
        | InlineNode s2 =>
            exact ⟨ch ++ [LayoutBox.mk default BoxType.AnonymousBlock [child]],
              by simp [push_inline_child, hl]⟩
        | AnonymousBlock =>
            exact ⟨ch.dropLast ++ [LayoutBox.mk d2 BoxType.AnonymousBlock (inner ++ [child])],
              by simp [push_inline_child, hl]⟩
  | InlineNode s => exact ⟨ch ++ [child], rfl⟩
  | AnonymousBlock => exact ⟨ch ++ [child], rfl⟩

/-- The child loop of `build_layout_tree` only ever appends children: the
root's dimensions and box type survive. -/
theorem build_children_shape (l : List StyledNode) :
    ∀ (d : Dimensions) (bt : BoxType) (ch : List LayoutBox) (r : LayoutBox),
      build_children (LayoutBox.mk d bt ch) l = some r →
      ∃ ch2, r = LayoutBox.mk d bt ch2 := by
  induction l with
  | nil =>
      intro d bt ch r h
      rw [build_children] at h
      exact ⟨ch, (Option.some_inj.mp h).symm⟩
  | cons x rest ih =>
      intro d bt ch r h
      rw [build_children] at h
      rcases hd : x.display with _ | _ | _ <;> rw [hd] at h
      · rcases hbx : build_layout_tree x with _ | xb <;> rw [hbx] at h <;> dsimp only at h
        · cases h
        · rcases push_inline_child_shape d bt ch xb with ⟨ch2, hpush⟩
          rw [hpush] at h
          exact ih d bt ch2 r h
      · rcases hbx : build_layout_tree x with _ | xb <;> rw [hbx] at h <;> dsimp only at h
        · cases h
        · rw [show push_block_child (LayoutBox.mk d bt ch) xb
              = LayoutBox.mk d bt (ch ++ [xb]) from rfl] at h
          exact ih d bt (ch ++ [xb]) r h
      · dsimp only at h
        exact ih d bt ch r h

/-- The child loop never panics when every recursive build of a non-`none`
child succeeds. -/
theorem build_children_isSome (l : List StyledNode)
    (IH : ∀ x ∈ l, x.display ≠ Display.None → (build_layout_tree x).isSome = true) :
    ∀ root, (build_children root l).isSome = true := by
  induction l with
  | nil => intro root; rfl
  | cons x rest ih =>
      intro root
      rw [build_children]
      have ihrest := ih (fun y hy hdy => IH y (List.mem_cons_of_mem _ hy) hdy)
      rcases hd : x.display with _ | _ | _
      · have hx := IH x (List.mem_cons_self _ _) (by rw [hd]; decide)
        rcases hbx : build_layout_tree x with _ | xb
        · rw [hbx] at hx; cases hx
        · simp only [hbx]
          exact ihrest _
      · have hx := IH x (List.mem_cons_self _ _) (by rw [hd]; decide)
        rcases hbx : build_layout_tree x with _ | xb
        · rw [hbx] at hx; cases hx
        · simp only [hbx]
          exact ihrest _
      · exact ihrest _

/-- Building the layout tree succeeds exactly when the root's display is not
`none`. -/
theorem build_layout_tree_isSome (s : StyledNode) (h : s.display ≠ Display.None) :
    (build_layout_tree s).isSome = true := by
  induction s using styled_node_strong_induction with
  | _ values children IH =>
      rw [build_layout_tree]
      rcases hd : (StyledNode.mk values children).display with _ | _ | _
      · exact build_children_isSome children
          (fun x hx hdx => IH x hx hdx) _
      · exact build_children_isSome children
          (fun x hx hdx => IH x hx hdx) _
      · exact absurd hd h

end Layout

namespace Layout

open CSS Style

/-- C5: a block styled node whose children resolve to the displays
[inline, inline, block, inline] builds exactly 3 layout children: one
anonymous box holding the two leading inline boxes (the second inline reuses
the trailing anonymous container), then the block box, then a fresh
anonymous box holding the trailing inline box. -/
theorem C5_anonymous_box_merging (s a b c e : StyledNode)
    (hs : s.display = Display.Block)
    (hc : s.children = [a, b, c, e])
    (ha : a.display = Display.Inline) (hb : b.display = Display.Inline)
    (hcd : c.display = Display.Block) (he : e.display = Display.Inline) :
    build_layout_tree s =
      match build_layout_tree a, build_layout_tree b, build_layout_tree c,
          build_layout_tree e with
      | some la, some lb, some lc, some le =>
          some (LayoutBox.mk default (BoxType.BlockNode s)
            [LayoutBox.mk default BoxType.AnonymousBlock [la, lb], lc,
             LayoutBox.mk default BoxType.AnonymousBlock [le]])
      | _, _, _, _ => none := by
  obtain ⟨la, hla⟩ := Option.isSome_iff_exists.mp
    (build_layout_tree_isSome a (by rw [ha]; decide))
  obtain ⟨lb, hlb⟩ := Option.isSome_iff_exists.mp
    (build_layout_tree_isSome b (by rw [hb]; decide))
  obtain ⟨lc, hlc⟩ := Option.isSome_iff_exists.mp
    (build_layout_tree_isSome c (by rw [hcd]; decide))
  obtain ⟨le, hle⟩ := Option.isSome_iff_exists.mp
    (build_layout_tree_isSome e (by rw [he]; decide))
  have hc_shape : ∃ chc, lc = LayoutBox.mk default (BoxType.BlockNode c) chc := by
    rcases c with ⟨vc, cc⟩
    rw [build_layout_tree, hcd] at hlc
    exact build_children_shape cc default _ [] lc hlc
  rcases hc_shape with ⟨chc, rfl⟩
  rcases s with ⟨v, ch⟩
  have hch : ch = [a, b, c, e] := hc
  subst hch
  rw [build_layout_tree, hs, hla, hlb, hlc, hle]
  dsimp only
  rw [build_children, ha, hla]
  dsimp only
  rw [show push_inline_child (LayoutBox.new (BoxType.BlockNode (StyledNode.mk v [a, b, c, e]))) la
      = LayoutBox.mk default (BoxType.BlockNode (StyledNode.mk v [a, b, c, e]))
          [LayoutBox.mk default BoxType.AnonymousBlock [la]] from rfl]
  rw [build_children, hb, hlb]
  dsimp only
  rw [show push_inline_child
        (LayoutBox.mk default (BoxType.BlockNode (StyledNode.mk v [a, b, c, e]))
          [LayoutBox.mk default BoxType.AnonymousBlock [la]]) lb
      = LayoutBox.mk default (BoxType.BlockNode (StyledNode.mk v [a, b, c, e]))
          [LayoutBox.mk default BoxType.AnonymousBlock [la, lb]] from rfl]
  rw [build_children, hcd, hlc]
  dsimp only
  rw [show push_block_child
        (LayoutBox.mk default (BoxType.BlockNode (StyledNode.mk v [a, b, c, e]))
          [LayoutBox.mk default BoxType.AnonymousBlock [la, lb]])
        (LayoutBox.mk default (BoxType.BlockNode c) chc)
      = LayoutBox.mk default (BoxType.BlockNode (StyledNode.mk v [a, b, c, e]))
          [LayoutBox.mk default BoxType.AnonymousBlock [la, lb],
           LayoutBox.mk default (BoxType.BlockNode c) chc] from rfl]
  rw [build_children, he, hle]
  dsimp only
  rw [show push_inline_child
        (LayoutBox.mk default (BoxType.BlockNode (StyledNode.mk v [a, b, c, e]))
          [LayoutBox.mk default BoxType.AnonymousBlock [la, lb],
           LayoutBox.mk default (BoxType.BlockNode c) chc]) le
      = LayoutBox.mk default (BoxType.BlockNode (StyledNode.mk v [a, b, c, e]))
          [LayoutBox.mk default BoxType.AnonymousBlock [la, lb],
           LayoutBox.mk default (BoxType.BlockNode c) chc,
           LayoutBox.mk default BoxType.AnonymousBlock [le]] from rfl]
  rw [build_children]

end Layout

namespace Layout

open CSS Style

/-- C5 witness: a concrete block parent with children resolving to
[inline, inline, block, inline] builds exactly the three-child shape. -/
theorem C5_anonymous_box_merging_witness :
    build_layout_tree mixed_parent =
      match build_layout_tree inline_node, build_layout_tree inline_node,
          build_layout_tree block_leaf, build_layout_tree inline_node with
      | some la, some lb, some lc, some le =>
          some (LayoutBox.mk default (BoxType.BlockNode mixed_parent)
            [LayoutBox.mk default BoxType.AnonymousBlock [la, lb], lc,
             LayoutBox.mk default BoxType.AnonymousBlock [le]])
      | _, _, _, _ => none :=
  C5_anonymous_box_merging mixed_parent inline_node inline_node block_leaf inline_node
    (by decide) rfl (by decide) (by decide) (by decide) (by decide)

/-- C9: the only fatal precondition failures are a root whose display
resolves to `none` (building fails exactly then) and asking an anonymous box
for its style node; block and inline boxes always yield their style node and
a `display: none` child is simply skipped. -/
theorem C9_fatal_preconditions :
    (∀ s : StyledNode, (build_layout_tree s).isSome = true ↔ s.display ≠ Display.None) ∧
    (∀ (d : Dimensions) (ch : List LayoutBox),
        (LayoutBox.mk d BoxType.AnonymousBlock ch).get_style_node = none) ∧
    (∀ (d : Dimensions) (node : StyledNode) (ch : List LayoutBox),
        (LayoutBox.mk d (BoxType.BlockNode node) ch).get_style_node = some node ∧
        (LayoutBox.mk d (BoxType.InlineNode node) ch).get_style_node = some node) ∧
    (∀ (root : LayoutBox) (child : StyledNode) (rest : List StyledNode),
        child.display = Display.None →
        build_children root (child :: rest) = build_children root rest) := by
  refine ⟨?_, ?_, ?_, ?_⟩
  · intro s
    constructor
    · intro hsome hnone
      rcases s with ⟨v, ch⟩
      rw [build_layout_tree, hnone] at hsome
      simp at hsome
    · exact build_layout_tree_isSome s
  · intro d ch
    rfl
  · intro d node ch
    exact ⟨rfl, rfl⟩
  · intro root child rest h
    rw [build_children, h]

/-- C9 witness: a `display: none` root aborts construction, block and inline
roots succeed, an anonymous box yields no style node, and a `display: none`
child is skipped. -/
theorem C9_fatal_preconditions_witness :
    build_layout_tree none_node = none ∧
    (build_layout_tree block_leaf).isSome = true ∧
    (build_layout_tree inline_node).isSome = true ∧
    (LayoutBox.mk default BoxType.AnonymousBlock []).get_style_node = none ∧
    build_children (LayoutBox.new (BoxType.BlockNode block_leaf)) [none_node]
      = build_children (LayoutBox.new (BoxType.BlockNode block_leaf)) [] := by
  have h := C9_fatal_preconditions
  refine ⟨?_, ?_, ?_, ?_, ?_⟩
  · have h2 : ¬ (build_layout_tree none_node).isSome = true := by
      intro hs
      exact ((h.1 none_node).mp hs) (by decide)
    exact Option.not_isSome_iff_eq_none.mp h2
  · exact (h.1 block_leaf).mpr (by decide)
  · exact (h.1 inline_node).mpr (by decide)
  · exact h.2.1 default []
  · exact h.2.2.2 _ none_node [] (by decide)

end Layout

namespace Layout

open CSS Style

/-- `calculate_block_width` only touches horizontal fields: the content
height survives. -/
theorem calculate_block_width_content_height (style : StyledNode) (d cb : Dimensions) :
    (calculate_block_width style d cb).content.height = d.content.height := by
  simp only [calculate_block_width]

/-- `calculate_block_position` only touches the vertical edges and the
position: the content height survives. -/
theorem calculate_block_position_content_height (style : StyledNode) (d cb : Dimensions) :
    (calculate_block_position style d cb).content.height = d.content.height := by
  simp only [calculate_block_position]

/-- `calculate_block_height` either installs the explicit pixel height or
leaves the accumulated height alone. -/
theorem calculate_block_height_eq (style : StyledNode) (d : Dimensions) :
    (calculate_block_height style d).content.height
      = match style.value "height" with
        | some (Value.Length h Unit.Px) => h
        | _ => d.content.height := by
  rw [calculate_block_height]
  rcases style.value "height" with _ | v
  · rfl
  · rcases v with kw | ⟨f, u⟩ | col
    · rfl
    · cases u
      rfl
    · rfl

/-- The child pass accumulates exactly the children's margin-box heights, in
order, on top of the incoming content height. -/
theorem layout_block_children_height (l : List LayoutBox) :
    ∀ d : Dimensions,
      (layout_block_children d l).1.content.height
        = d.content.height
          + (((layout_block_children d l).2).map
              (fun c => c.dimensions.margin_box.height)).sum := by
  induction l with
  | nil =>
      intro d
      simp [layout_block_children]
  | cons child rest ih =>
      intro d
      rw [layout_block_children]
      dsimp only
      rw [ih]
      dsimp only
      simp only [List.map_cons, List.sum_cons]
      ring

/-- C6: a Block box entering layout with content height 0 ends with content
height equal to the sum, in child order, of its (laid out) children's
margin-box heights, unless the style specifies an explicit pixel height, in
which case that value overrides the sum; with no children and no explicit
height the height is 0. -/
theorem C6_block_height_accumulation (node : StyledNode) (d cb : Dimensions)
    (children : List LayoutBox) (h0 : d.content.height = 0) :
    (layout (LayoutBox.mk d (BoxType.BlockNode node) children) cb).dimensions.content.height
      = match node.value "height" with
        | some (Value.Length h Unit.Px) => h
        | _ => (((layout (LayoutBox.mk d (BoxType.BlockNode node) children) cb).children).map
            (fun c => c.dimensions.margin_box.height)).sum := by
  rw [layout]
  dsimp only [LayoutBox.dimensions, LayoutBox.children]
  rw [calculate_block_height_eq]
  rcases node.value "height" with _ | v
  · rw [layout_block_children_height, calculate_block_position_content_height,
      calculate_block_width_content_height, h0, zero_add]
    rfl
  · rcases v with kw | ⟨f, u⟩ | col
    · rw [layout_block_children_height, calculate_block_position_content_height,
        calculate_block_width_content_height, h0, zero_add]
      rfl
    · cases u
      rfl
    · rw [layout_block_children_height, calculate_block_position_content_height,
        calculate_block_width_content_height, h0, zero_add]
      rfl

/-- C6 witness: a childless block box with no explicit height gets content
height 0 (the empty sum). -/
theorem C6_block_height_witness :
    (layout (LayoutBox.mk default (BoxType.BlockNode inline_node) []) default).dimensions.content.height
      = match inline_node.value "height" with
        | some (Value.Length h Unit.Px) => h
        | _ => (((layout (LayoutBox.mk default (BoxType.BlockNode inline_node) []) default).children).map
            (fun c => c.dimensions.margin_box.height)).sum :=
  C6_block_height_accumulation inline_node default default [] rfl

end Layout

namespace Painting

open CSS Style Layout

/-- Background then borders append exactly the box's own commands. -/
theorem render_self_eq (list : DisplayList) (b : LayoutBox) :
    render_borders (render_background list b) b = list ++ box_own_commands b := by
  unfold render_background render_borders box_own_commands
  rcases get_color b "background" with _ | cbg <;>
    rcases get_color b "border-color" with _ | cbd <;>
      simp

/-- The child loop, given the equation for each child, appends the
children's spec display lists in order. -/
theorem render_children_eq (l : List LayoutBox)
    (hIH : ∀ c ∈ l, ∀ lst, render_layout_box lst c = lst ++ display_list_spec c) :
    ∀ lst, render_children lst l = lst ++ display_list_spec_children l := by
  induction l with
  | nil =>
      intro lst
      simp [render_children, display_list_spec_children]
  | cons c rest ih =>
      intro lst
      rw [render_children, display_list_spec_children]
      rw [hIH c (List.mem_cons_self _ _) lst]
      rw [ih (fun x hx => hIH x (List.mem_cons_of_mem _ hx))]
      simp [List.append_assoc]

/-- The accumulator-style renderer emits exactly the spec's pre-order
display list after whatever was already accumulated. -/
theorem render_layout_box_eq (b : LayoutBox) :
    ∀ list, render_layout_box list b = list ++ display_list_spec b := by
  induction b using layout_box_strong_induction with
  | _ d bt children IH =>
      intro list
      rw [render_layout_box, display_list_spec]
      rw [render_self_eq]
      rw [render_children_eq children IH]
      simp [List.append_assoc]

/-- C7: the display list is the pre-order traversal in which every box emits
one background command over its border box if and only if a `background`
color is specified, then the four border edges in left, right, top, bottom
order if and only if a `border-color` is specified, then its children's
commands in order; anonymous boxes emit no commands of their own. -/
theorem C7_display_list_preorder :
    (∀ b : LayoutBox, build_display_list b = display_list_spec b) ∧
    (∀ (d : Dimensions) (ch : List LayoutBox),
        box_own_commands (LayoutBox.mk d BoxType.AnonymousBlock ch) = []) := by
  constructor
  · intro b
    rw [build_display_list, render_layout_box_eq]
    simp
  · intro d ch
    rfl

end Painting

namespace Painting

open CSS Style Layout

/-- A clamped-then-cast coordinate never exceeds the (natural) upper
bound. -/
theorem to_usize_clamp_le (q : ℚ) (n : Nat) :
    to_usize (clamp q 0 (n : ℚ)) ≤ n := by
  have h1 : clamp q 0 (n : ℚ) ≤ (n : ℚ) := min_le_right _ _
  have h2 : (⌊clamp q 0 (n : ℚ)⌋ : ℤ) ≤ (n : ℤ) := by
    have := Int.floor_le_floor h1
    rwa [Int.floor_natCast] at this
  exact Int.toNat_le.mpr h2

/-- A fold of in-bounds pixel stores succeeds and preserves the length. -/
theorem foldlM_set_pixel (f : Nat → Nat) (color : Color) (xs : List Nat) :
    ∀ pixels : List Color, (∀ i ∈ xs, f i < pixels.length) →
      ∃ pixels2,
        xs.foldlM (fun px i => set_pixel px (f i) color) pixels = some pixels2 ∧
          pixels2.length = pixels.length := by
  induction xs with
  | nil =>
      intro pixels _
      exact ⟨pixels, rfl, rfl⟩
  | cons i rest ih =>
      intro pixels h
      have hi : f i < pixels.length := h i (List.mem_cons_self _ _)
      rcases ih (pixels.set (f i) color)
          (fun j hj => by
            rw [List.length_set]
            exact h j (List.mem_cons_of_mem _ hj)) with ⟨p2, hp2, hl⟩
      refine ⟨p2, ?_, by rw [hl, List.length_set]⟩
      rw [List.foldlM_cons, set_pixel, if_pos hi]
      simpa using hp2

/-- The row loop of `paint_item` succeeds and preserves the length when all
covered indices are in bounds. -/
theorem foldlM_paint_rows (width : Nat) (color : Color) (x0 x1 : Nat) (ys : List Nat) :
    ∀ pixels : List Color,
      (∀ y ∈ ys, ∀ x ∈ List.range' x0 (x1 - x0), y * width + x < pixels.length) →
      ∃ pixels2,
        ys.foldlM
            (fun px y =>
              (List.range' x0 (x1 - x0)).foldlM
                (fun px x => set_pixel px (y * width + x) color) px)
            pixels = some pixels2 ∧
          pixels2.length = pixels.length := by
  induction ys with
  | nil =>
      intro pixels _
      exact ⟨pixels, rfl, rfl⟩
  | cons y rest ih =>
      intro pixels h
      rcases foldlM_set_pixel (fun x => y * width + x) color (List.range' x0 (x1 - x0)) pixels
          (fun x hx => h y (List.mem_cons_self _ _) x hx) with ⟨p1, hp1, hl1⟩
      rcases ih p1
          (fun y2 hy2 x hx => by
            rw [hl1]
            exact h y2 (List.mem_cons_of_mem _ hy2) x hx) with ⟨p2, hp2, hl2⟩
      refine ⟨p2, ?_, by rw [hl2, hl1]⟩
      rw [List.foldlM_cons]
      rw [hp1]
      simpa using hp2

/-- A fold whose step always returns its input unchanged succeeds with the
input. -/
theorem foldlM_const_some {α β : Type} (l : List β) (g : α → β → Option α)
    (hg : ∀ a b, g a b = some a) : ∀ a, l.foldlM g a = some a := by
  induction l with
  | nil => intro a; rfl
  | cons b rest ih =>
      intro a
      rw [List.foldlM_cons, hg]
      simpa using ih a

end Painting

namespace Painting

open CSS Style Layout

/-- Painting a command on a correctly sized canvas never indexes out of
bounds (modelled: every pixel store is in range, so the checked stores all
succeed). -/
theorem paint_item_isSome (canvas : Canvas) (item : DisplayCommand)
    (h : canvas.pixels.length = canvas.width * canvas.height) :
    (canvas.paint_item item).isSome = true := by
  rcases item with ⟨color, rect⟩
  rw [Canvas.paint_item]
  rcases foldlM_paint_rows canvas.width color
      (to_usize (clamp rect.x 0 (canvas.width : ℚ)))
      (to_usize (clamp (rect.x + rect.width) 0 (canvas.width : ℚ)))
      (List.range' (to_usize (clamp rect.y 0 (canvas.height : ℚ)))
        (to_usize (clamp (rect.y + rect.height) 0 (canvas.height : ℚ))
          - to_usize (clamp rect.y 0 (canvas.height : ℚ))))
      canvas.pixels
      (by
        intro y hy x hx
        rw [h]
        rcases List.mem_range'_1.mp hx with ⟨hx1, hx2⟩
        rcases List.mem_range'_1.mp hy with ⟨hy1, hy2⟩
        have hxlt : x < to_usize (clamp (rect.x + rect.width) 0 (canvas.width : ℚ)) := by
          omega
        have hylt : y < to_usize (clamp (rect.y + rect.height) 0 (canvas.height : ℚ)) := by
          omega
        have hxw : x < canvas.width :=
          lt_of_lt_of_le hxlt (to_usize_clamp_le _ _)
        have hyh : y < canvas.height :=
          lt_of_lt_of_le hylt (to_usize_clamp_le _ _)
        calc y * canvas.width + x < y * canvas.width + canvas.width := by omega
          _ = (y + 1) * canvas.width := by ring
          _ ≤ canvas.height * canvas.width := Nat.mul_le_mul_right _ (by omega)
          _ = canvas.width * canvas.height := Nat.mul_comm _ _) with ⟨p2, hp2, _⟩
  rw [hp2]
  rfl

/-- A command rectangle entirely outside the canvas clips to an empty pixel
range and paints nothing. -/
theorem paint_item_outside (canvas : Canvas) (color : Color) (rect : Rect)
    (h : (canvas.width : ℚ) ≤ rect.x ∨ rect.x + rect.width ≤ 0 ∨
         (canvas.height : ℚ) ≤ rect.y ∨ rect.y + rect.height ≤ 0) :
    canvas.paint_item (DisplayCommand.SolidColor color rect) = some canvas := by
  rw [Canvas.paint_item]
  have hwnn : (0 : ℚ) ≤ (canvas.width : ℚ) := Nat.cast_nonneg _
  have hhnn : (0 : ℚ) ≤ (canvas.height : ℚ) := Nat.cast_nonneg _
  rcases h with h | h | h | h
  · have hx0 : to_usize (clamp rect.x 0 (canvas.width : ℚ)) = canvas.width := by
      have hc : clamp rect.x 0 (canvas.width : ℚ) = (canvas.width : ℚ) := by
        rw [clamp, max_eq_left (le_trans hwnn h)]
        exact min_eq_right h
      rw [hc, to_usize, Int.floor_natCast]
      exact Int.toNat_natCast _
    have hx1 := to_usize_clamp_le (rect.x + rect.width) canvas.width
    have hsub : to_usize (clamp (rect.x + rect.width) 0 (canvas.width : ℚ))
        - to_usize (clamp rect.x 0 (canvas.width : ℚ)) = 0 := by omega
    rw [hsub]
    rw [foldlM_const_some
      (List.range' (to_usize (clamp rect.y 0 (canvas.height : ℚ)))
        (to_usize (clamp (rect.y + rect.height) 0 (canvas.height : ℚ))
          - to_usize (clamp rect.y 0 (canvas.height : ℚ))))
      (fun pixels y =>
        List.foldlM (fun pixels x => set_pixel pixels (y * canvas.width + x) color) pixels
          (List.range' (to_usize (clamp rect.x 0 (canvas.width : ℚ))) 0))
      (fun a b => rfl) canvas.pixels]
    rfl
  · have hx1 : to_usize (clamp (rect.x + rect.width) 0 (canvas.width : ℚ)) = 0 := by
      have hc : clamp (rect.x + rect.width) 0 (canvas.width : ℚ) = 0 := by
        rw [clamp, max_eq_right h]
        exact min_eq_left hwnn
      rw [hc, to_usize, Int.floor_zero]
      rfl
    have hsub : to_usize (clamp (rect.x + rect.width) 0 (canvas.width : ℚ))
        - to_usize (clamp rect.x 0 (canvas.width : ℚ)) = 0 := by omega
    rw [hsub]
    rw [foldlM_const_some
      (List.range' (to_usize (clamp rect.y 0 (canvas.height : ℚ)))
        (to_usize (clamp (rect.y + rect.height) 0 (canvas.height : ℚ))
          - to_usize (clamp rect.y 0 (canvas.height : ℚ))))
      (fun pixels y =>
        List.foldlM (fun pixels x => set_pixel pixels (y * canvas.width + x) color) pixels
          (List.range' (to_usize (clamp rect.x 0 (canvas.width : ℚ))) 0))
      (fun a b => rfl) canvas.pixels]
    rfl
  · have hy0 : to_usize (clamp rect.y 0 (canvas.height : ℚ)) = canvas.height := by
      have hc : clamp rect.y 0 (canvas.height : ℚ) = (canvas.height : ℚ) := by
        rw [clamp, max_eq_left (le_trans hhnn h)]
        exact min_eq_right h
      rw [hc, to_usize, Int.floor_natCast]
      exact Int.toNat_natCast _
    have hy1 := to_usize_clamp_le (rect.y + rect.height) canvas.height
    have hsub : to_usize (clamp (rect.y + rect.height) 0 (canvas.height : ℚ))
        - to_usize (clamp rect.y 0 (canvas.height : ℚ)) = 0 := by omega
    rw [hsub]
    rfl
  · have hy1 : to_usize (clamp (rect.y + rect.height) 0 (canvas.height : ℚ)) = 0 := by
      have hc : clamp (rect.y + rect.height) 0 (canvas.height : ℚ) = 0 := by
        rw [clamp, max_eq_right h]
        exact min_eq_left hhnn
      rw [hc, to_usize, Int.floor_zero]
      rfl
    have hsub : to_usize (clamp (rect.y + rect.height) 0 (canvas.height : ℚ))
        - to_usize (clamp rect.y 0 (canvas.height : ℚ)) = 0 := by omega
    rw [hsub]
    rfl

end Painting

namespace Painting

open CSS Style Layout

/-- C8: painting clips every command rectangle to the canvas and writes only
in-bounds pixels (a correctly sized canvas never sees an out-of-bounds
index), a rectangle fully outside the bounds paints nothing, and the
rectangle at x = −10 of width 30 on a 20px-wide canvas paints exactly
columns 0..19 of its covered row. -/
theorem C8_rasterizer_clipping :
    (∀ (canvas : Canvas) (item : DisplayCommand),
        canvas.pixels.length = canvas.width * canvas.height →
        (canvas.paint_item item).isSome = true) ∧
    (∀ (canvas : Canvas) (color : Color) (rect : Rect),
        ((canvas.width : ℚ) ≤ rect.x ∨ rect.x + rect.width ≤ 0 ∨
         (canvas.height : ℚ) ≤ rect.y ∨ rect.y + rect.height ≤ 0) →
        canvas.paint_item (DisplayCommand.SolidColor color rect) = some canvas) ∧
    ((Canvas.new 20 2).paint_item
        (DisplayCommand.SolidColor red { x := -10, y := 0, width := 30, height := 1 })
      = some { pixels := List.replicate 20 red ++ List.replicate 20 white,
               width := 20, height := 2 }) := by
  refine ⟨paint_item_isSome, paint_item_outside, ?_⟩
  have h1 : to_usize (clamp (-10 : ℚ) 0 ((20 : ℕ) : ℚ)) = 0 := by
    rw [clamp, max_eq_right (by norm_num : (-10 : ℚ) ≤ 0),
      min_eq_left (by norm_num : (0 : ℚ) ≤ ((20 : ℕ) : ℚ)), to_usize, Int.floor_zero]
    rfl
  have h2 : to_usize (clamp ((-10 : ℚ) + 30) 0 ((20 : ℕ) : ℚ)) = 20 := by
    have he : ((-10 : ℚ) + 30) = ((20 : ℕ) : ℚ) := by norm_num
    rw [he, clamp, max_eq_left (by norm_num : (0 : ℚ) ≤ ((20 : ℕ) : ℚ)), min_self,
      to_usize, Int.floor_natCast]
    rfl
  have h3 : to_usize (clamp (0 : ℚ) 0 ((2 : ℕ) : ℚ)) = 0 := by
    rw [clamp, max_self, min_eq_left (by norm_num : (0 : ℚ) ≤ ((2 : ℕ) : ℚ)),
      to_usize, Int.floor_zero]
    rfl
  have h4 : to_usize (clamp ((0 : ℚ) + 1) 0 ((2 : ℕ) : ℚ)) = 1 := by
    have he : ((0 : ℚ) + 1) = ((1 : ℕ) : ℚ) := by norm_num
    rw [he, clamp, max_eq_left (by norm_num : (0 : ℚ) ≤ ((1 : ℕ) : ℚ)),
      min_eq_left (by norm_num : ((1 : ℕ) : ℚ) ≤ ((2 : ℕ) : ℚ)), to_usize, Int.floor_natCast]
    rfl
  rw [Canvas.paint_item]
  simp only [Canvas.new]
  rw [h1, h2, h3, h4]
  decide

/-- C8 witness: the concrete canvas is correctly sized so painting succeeds,
and a rectangle starting at x = 25 on a 20px-wide canvas paints nothing. -/
theorem C8_rasterizer_clipping_witness :
    ((Canvas.new 20 2).paint_item
        (DisplayCommand.SolidColor red { x := -10, y := 0, width := 30, height := 1 })).isSome
      = true ∧
    (Canvas.new 20 2).paint_item
        (DisplayCommand.SolidColor red { x := 25, y := 0, width := 5, height := 1 })
      = some (Canvas.new 20 2) := by
  have h := C8_rasterizer_clipping
  constructor
  · exact h.1 _ _ (by simp [Canvas.new])
  · exact h.2.1 _ _ _ (Or.inl (by norm_num [Canvas.new]))

end Painting

namespace Layout

open CSS Style

/-- Membership in the concatenated subboxes of a list of boxes. -/
theorem mem_subboxes_list (u : LayoutBox) (l : List LayoutBox) :
    u ∈ subboxes_list l ↔ ∃ c ∈ l, u ∈ subboxes c := by
  induction l with
  | nil => simp [subboxes_list]
  | cons c rest ih =>
      rw [subboxes_list]
      rw [List.mem_append, ih]
      constructor
      · rintro (h | ⟨c2, hc2, hu⟩)
        · exact ⟨c, List.mem_cons_self _ _, h⟩
        · exact ⟨c2, List.mem_cons_of_mem _ hc2, hu⟩
      · rintro ⟨c2, hc2, hu⟩
        rcases List.mem_cons.mp hc2 with rfl | hc2
        · exact Or.inl hu
        · exact Or.inr ⟨c2, hc2, hu⟩

/-- Membership in the subboxes of a box: the box itself or a subbox of a
child. -/
theorem mem_subboxes (u : LayoutBox) (d : Dimensions) (bt : BoxType) (ch : List LayoutBox) :
    u ∈ subboxes (LayoutBox.mk d bt ch)
      ↔ u = LayoutBox.mk d bt ch ∨ ∃ c ∈ ch, u ∈ subboxes c := by
  rw [subboxes, List.mem_cons, mem_subboxes_list]

/-- Every box is among its own subboxes. -/
theorem self_mem_subboxes (b : LayoutBox) : b ∈ subboxes b := by
  rcases b with ⟨d, bt, ch⟩
  rw [subboxes]
  exact List.mem_cons_self _ _

/-- Subboxes of subboxes are subboxes. -/
theorem subboxes_trans (b : LayoutBox) :
    ∀ t ∈ subboxes b, ∀ u ∈ subboxes t, u ∈ subboxes b := by
  induction b using layout_box_strong_induction with
  | _ d bt ch IH =>
      intro t ht u hu
      rcases (mem_subboxes t d bt ch).mp ht with rfl | ⟨c, hc, htc⟩
      · exact hu
      · exact (mem_subboxes u d bt ch).mpr (Or.inr ⟨c, hc, IH c hc t htc u hu⟩)

/-- Structural characterisation of the all-default-dimensions predicate. -/
theorem all_default_dims_iff (d : Dimensions) (bt : BoxType) (ch : List LayoutBox) :
    all_default_dims (LayoutBox.mk d bt ch)
      ↔ d = default ∧ ∀ c ∈ ch, all_default_dims c := by
  unfold all_default_dims
  constructor
  · intro h
    refine ⟨h _ (self_mem_subboxes _), fun c hc u hu => ?_⟩
    exact h u ((mem_subboxes u d bt ch).mpr (Or.inr ⟨c, hc, hu⟩))
  · rintro ⟨hd, hch⟩ u hu
    rcases (mem_subboxes u d bt ch).mp hu with rfl | ⟨c, hc, huc⟩
    · exact hd ▸ rfl
    · exact hch c hc u huc

end Layout

namespace Layout

open CSS Style

/-- The fresh boxes `LayoutBox::new` creates have default dimensions. -/
theorem all_default_dims_new (bt : BoxType) : all_default_dims (LayoutBox.new bt) := by
  rw [LayoutBox.new]
  exact (all_default_dims_iff _ _ _).mpr ⟨rfl, by simp⟩

/-- Appending a block child preserves all-default dimensions. -/
theorem push_block_child_all_default (root child : LayoutBox)
    (hr : all_default_dims root) (hc : all_default_dims child) :
    all_default_dims (push_block_child root child) := by
  rcases root with ⟨d, bt, ch⟩
  rcases (all_default_dims_iff d bt ch).mp hr with ⟨hd, hch⟩
  rw [push_block_child]
  refine (all_default_dims_iff d bt (ch ++ [child])).mpr ⟨hd, fun c hc2 => ?_⟩
  rcases List.mem_append.mp hc2 with h | h
  · exact hch c h
  · rw [List.mem_singleton.mp h]
    exact hc

/-- Appending through the inline container preserves all-default
dimensions. -/
theorem push_inline_child_all_default (root child : LayoutBox)
    (hr : all_default_dims root) (hc : all_default_dims child) :
    all_default_dims (push_inline_child root child) := by
  rcases root with ⟨d, bt, ch⟩
  rcases (all_default_dims_iff d bt ch).mp hr with ⟨hd, hch⟩
  cases bt with
  | InlineNode node =>
      rw [push_inline_child]
      refine (all_default_dims_iff _ _ _).mpr ⟨hd, fun c hc2 => ?_⟩
      rcases List.mem_append.mp hc2 with h | h
      · exact hch c h
      · rw [List.mem_singleton.mp h]
        exact hc
  | AnonymousBlock =>
      rw [push_inline_child]
      refine (all_default_dims_iff _ _ _).mpr ⟨hd, fun c hc2 => ?_⟩
      rcases List.mem_append.mp hc2 with h | h
      · exact hch c h
      · rw [List.mem_singleton.mp h]
        exact hc
  | BlockNode node =>
      rw [push_inline_child]
      rcases hl : ch.getLast? with _ | last
      · refine (all_default_dims_iff _ _ _).mpr ⟨hd, fun c hc2 => ?_⟩
        rcases List.mem_append.mp hc2 with h | h
        · exact hch c h
        · rw [List.mem_singleton.mp h]
          exact (all_default_dims_iff _ _ _).mpr ⟨rfl, by simpa using hc⟩
      · have hlast := hch last (List.mem_of_getLast?_eq_some hl)
        rcases last with ⟨d2, bt2, inner⟩
        rcases (all_default_dims_iff d2 bt2 inner).mp hlast with ⟨hd2, hinner⟩
        cases bt2 with
        | BlockNode node2 =>
            refine (all_default_dims_iff _ _ _).mpr ⟨hd, fun c hc2 => ?_⟩
            rcases List.mem_append.mp hc2 with h | h
            · exact hch c h
            · rw [List.mem_singleton.mp h]
              exact (all_default_dims_iff _ _ _).mpr ⟨rfl, by simpa using hc⟩
        | InlineNode node2 =>
            refine (all_default_dims_iff _ _ _).mpr ⟨hd, fun c hc2 => ?_⟩
            rcases List.mem_append.mp hc2 with h | h
            · exact hch c h
            · rw [List.mem_singleton.mp h]
              exact (all_default_dims_iff _ _ _).mpr ⟨rfl, by simpa using hc⟩
        | AnonymousBlock =>
            refine (all_default_dims_iff _ _ _).mpr ⟨hd, fun c hc2 => ?_⟩
            rcases List.mem_append.mp hc2 with h | h
            · exact hch c (List.dropLast_subset ch h)
            · rw [List.mem_singleton.mp h]
              refine (all_default_dims_iff _ _ _).mpr ⟨hd2, fun i hi => ?_⟩
              rcases List.mem_append.mp hi with h2 | h2
              · exact hinner i h2
              · rw [List.mem_singleton.mp h2]
                exact hc

end Layout

namespace Layout

open CSS Style

/-- The child loop of the builder keeps every dimension at its default. -/
theorem build_children_all_default (l : List StyledNode) :
    ∀ (root r : LayoutBox), all_default_dims root →
      (∀ x ∈ l, ∀ xb, build_layout_tree x = some xb → all_default_dims xb) →
      build_children root l = some r → all_default_dims r := by
  induction l with
  | nil =>
      intro root r hroot _ h
      rw [build_children] at h
      rw [← Option.some_inj.mp h]
      exact hroot
  | cons x rest ih =>
      intro root r hroot hIH h
      rw [build_children] at h
      rcases hd : x.display with _ | _ | _ <;> rw [hd] at h
      · rcases hbx : build_layout_tree x with _ | xb <;> rw [hbx] at h <;> dsimp only at h
        · cases h
        · exact ih _ r
            (push_inline_child_all_default root xb hroot
              (hIH x (List.mem_cons_self _ _) xb hbx))
            (fun y hy => hIH y (List.mem_cons_of_mem _ hy)) h
      · rcases hbx : build_layout_tree x with _ | xb <;> rw [hbx] at h <;> dsimp only at h
        · cases h
        · exact ih _ r
            (push_block_child_all_default root xb hroot
              (hIH x (List.mem_cons_self _ _) xb hbx))
            (fun y hy => hIH y (List.mem_cons_of_mem _ hy)) h
      · dsimp only at h
        exact ih root r hroot (fun y hy => hIH y (List.mem_cons_of_mem _ hy)) h

/-- Every box the builder produces has the all-zero default dimensions. -/
theorem build_layout_tree_all_default (s : StyledNode) :
    ∀ lb, build_layout_tree s = some lb → all_default_dims lb := by
  induction s using styled_node_strong_induction with
  | _ values children IH =>
      intro lb h
      rw [build_layout_tree] at h
      rcases hd : (StyledNode.mk values children).display with _ | _ | _ <;> rw [hd] at h <;>
        dsimp only at h
      · exact build_children_all_default children _ lb (all_default_dims_new _) IH h
      · exact build_children_all_default children _ lb (all_default_dims_new _) IH h
      · cases h

/-- Every box the child layout pass emits is the layout of one of the input
children against some dimensions. -/
theorem layout_block_children_mem (l : List LayoutBox) :
    ∀ (d : Dimensions) (c2 : LayoutBox), c2 ∈ (layout_block_children d l).2 →
      ∃ c ∈ l, ∃ d2, c2 = layout c d2 := by
  induction l with
  | nil =>
      intro d c2 h
      rw [layout_block_children] at h
      cases h
  | cons child rest ih =>
      intro d c2 h
      rw [layout_block_children] at h
      rcases List.mem_cons.mp h with rfl | h2
      · exact ⟨child, List.mem_cons_self _ _, d, rfl⟩
      · rcases ih _ c2 h2 with ⟨c, hc, d2, hc2⟩
        exact ⟨c, List.mem_cons_of_mem _ hc, d2, hc2⟩

/-- Layout is the identity on an inline box. -/
theorem layout_inline (d : Dimensions) (node : StyledNode) (ch : List LayoutBox)
    (cb : Dimensions) :
    layout (LayoutBox.mk d (BoxType.InlineNode node) ch) cb
      = LayoutBox.mk d (BoxType.InlineNode node) ch := rfl

/-- Layout is the identity on an anonymous box. -/
theorem layout_anonymous (d : Dimensions) (ch : List LayoutBox) (cb : Dimensions) :
    layout (LayoutBox.mk d BoxType.AnonymousBlock ch) cb
      = LayoutBox.mk d BoxType.AnonymousBlock ch := rfl

/-- Laying out a tree whose dimensions are all default leaves every inline
or anonymous box — and everything below it — at the default dimensions
(layout is a no-op on such boxes and never recurses into them). -/
theorem layout_inline_anon_zero (b : LayoutBox) :
    ∀ cb, all_default_dims b →
      ∀ t ∈ subboxes (layout b cb), is_inline_or_anonymous t = true →
        ∀ u ∈ subboxes t, u.dimensions = default := by
  induction b using layout_box_strong_induction with
  | _ d bt children IH =>
      intro cb hdef t ht hia u hu
      cases bt with
      | BlockNode node =>
          rw [layout] at ht
          rcases (mem_subboxes t _ _ _).mp ht with rfl | ⟨c2, hc2, htc2⟩
          · rw [is_inline_or_anonymous, LayoutBox.box_type] at hia
            cases hia
          · rcases layout_block_children_mem children _ c2 hc2 with ⟨c, hc, d2, rfl⟩
            have hcdef : all_default_dims c :=
              ((all_default_dims_iff _ _ _).mp hdef).2 c hc
            exact IH c hc d2 hcdef t htc2 hia u hu
      | InlineNode node =>
          rw [layout_inline] at ht
          exact hdef u (subboxes_trans _ t ht u hu)
      | AnonymousBlock =>
          rw [layout_anonymous] at ht
          exact hdef u (subboxes_trans _ t ht u hu)

end Layout

namespace Layout

open CSS Style

/-- The default dimensions, written out. -/
theorem default_dimensions_eq :
    (default : Dimensions)
      = { content := { x := 0, y := 0, width := 0, height := 0 },
          padding := { left := 0, right := 0, top := 0, bottom := 0 },
          border := { left := 0, right := 0, top := 0, bottom := 0 },
          margin := { left := 0, right := 0, top := 0, bottom := 0 } } := rfl

/-- The margin box of the default dimensions has height 0. -/
theorem default_margin_box_height : (default : Dimensions).margin_box.height = 0 := by
  rw [default_dimensions_eq]
  norm_num [Dimensions.margin_box, Dimensions.border_box, Dimensions.padding_box,
    Rect.expanded_by]

/-- The border box of the default dimensions is the zero rectangle at the
origin. -/
theorem default_border_box :
    (default : Dimensions).border_box = { x := 0, y := 0, width := 0, height := 0 } := by
  rw [default_dimensions_eq]
  norm_num [Dimensions.border_box, Dimensions.padding_box, Rect.expanded_by]

/-- C10: in every tree `layout_tree` returns, every inline or anonymous box
and every box below one keeps the all-zero default dimensions, so such a box
contributes margin-box height 0 to its parent and its border box (used for
background and border paint rectangles) is the zero-area rectangle at the
origin. -/
theorem C10_inline_anonymous_default_dims (s : StyledNode) (containing_block : Dimensions)
    (lb : LayoutBox) (h : layout_tree s containing_block = some lb) :
    ∀ t ∈ subboxes lb, is_inline_or_anonymous t = true →
      ∀ u ∈ subboxes t,
        u.dimensions = default ∧
        u.dimensions.margin_box.height = 0 ∧
        u.dimensions.border_box = { x := 0, y := 0, width := 0, height := 0 } := by
  rw [layout_tree] at h
  rcases hb : build_layout_tree s with _ | root
  · rw [hb] at h
    cases h
  · rw [hb, Option.map_some'] at h
    have hlb := Option.some_inj.mp h
    subst hlb
    intro t ht hia u hu
    have hdef := build_layout_tree_all_default s root hb
    have hud := layout_inline_anon_zero root _ hdef t ht hia u hu
    refine ⟨hud, ?_, ?_⟩
    · rw [hud, default_margin_box_height]
    · rw [hud, default_border_box]

/-- C10 witness: laying out an inline root is a no-op, and the resulting
inline box keeps the default dimensions, a zero-height margin box and the
zero border box. -/
theorem C10_inline_anonymous_default_dims_witness :
    (LayoutBox.mk default (BoxType.InlineNode inline_node) []).dimensions = default ∧
    (LayoutBox.mk default (BoxType.InlineNode inline_node) []).dimensions.margin_box.height = 0 ∧
    (LayoutBox.mk default (BoxType.InlineNode inline_node) []).dimensions.border_box
      = { x := 0, y := 0, width := 0, height := 0 } :=
  C10_inline_anonymous_default_dims inline_node default
    (LayoutBox.mk default (BoxType.InlineNode inline_node) []) rfl
    (LayoutBox.mk default (BoxType.InlineNode inline_node) [])
    (self_mem_subboxes _) rfl
    (LayoutBox.mk default (BoxType.InlineNode inline_node) [])
    (self_mem_subboxes _)

end Layout
